import Mathlib

/-!
Shallow embedding of the `ncp` toolchain (nerec compiler / nere virtual machine)
and proofs about its specification claims.

Conventions of the embedding:
* Machine bytes are modelled as `Nat` values in `[0, 256)`; multi-byte fields use
  the platform's native endianness, modelled as little-endian (x86-64).
* `usize`/`isize` are 64-bit; `isize` values are the two's-complement reading of
  the same 8 bytes.
* Fallible Rust code is modelled with `Option`/`Except`: `none` stands for a
  panic or abort (failed `unwrap`, out-of-bounds slice/`drain`, failed
  `debug_assert!`, arithmetic overflow, `unreachable!()`, `todo!()`), while
  `some (.error e)` is a returned `Err(e)` and `some (.ok x)` a returned `Ok(x)`.
* The numeric semantics follow the debug profile (`cargo build` default):
  `debug_assert!` is active and integer overflow panics.
* Loops are modelled with an explicit fuel parameter; exhausted fuel also yields
  `none`, so any `some`-result certifies termination of the modelled loop.
-/

deriving instance DecidableEq for Except

namespace Ncp

/-! ## Byte-level encoding (native endianness, modelled as little-endian) -/

/-- Little-endian decoding of a byte list into a natural number. -/
def decodeLE : List Nat → Nat
  | [] => 0
  | b :: rest => b % 256 + 256 * decodeLE rest

/-- Little-endian encoding of `n` into exactly `k` bytes (truncating). -/
def encodeLEn : Nat → Nat → List Nat
  | 0, _ => []
  | k + 1, n => n % 256 :: encodeLEn k (n / 256)

/-- `usize::from_ne_bytes` on 8 bytes. -/
def decode64 (bs : List Nat) : Nat := decodeLE (bs.take 8)

/-- `usize::to_ne_bytes` (8 bytes). -/
def encode64 (n : Nat) : List Nat := encodeLEn 8 n

/-- `isize::from_ne_bytes` on 8 bytes: two's-complement reading. -/
def decodeI64 (bs : List Nat) : Int :=
  let n := decode64 bs
  if n < 2 ^ 63 then (n : Int) else (n : Int) - 2 ^ 64

/-- `isize::to_ne_bytes` (8 bytes, two's complement). -/
def encodeI64 (i : Int) : List Nat := encode64 ((i % 2 ^ 64).toNat)

/-- `u32::from_ne_bytes` on 4 bytes. -/
def decode32 (bs : List Nat) : Nat := decodeLE (bs.take 4)

/-- `i32::from_ne_bytes` on 4 bytes: two's-complement reading. -/
def decodeI32 (bs : List Nat) : Int :=
  let n := decode32 bs
  if n < 2 ^ 31 then (n : Int) else (n : Int) - 2 ^ 32

/-- `i32::to_ne_bytes` (4 bytes, two's complement). -/
def encodeI32 (i : Int) : List Nat := encodeLEn 4 ((i % 2 ^ 32).toNat)

/-- Debug-profile `i32` arithmetic result: panics (`none`) on overflow. -/
def i32chk (i : Int) : Option Int :=
  if -(2 ^ 31) ≤ i ∧ i < 2 ^ 31 then some i else none

/-! ## `nere_internal.rs`: locations, opcodes, values, errors, tokens -/

/-- `Location { path, line, column }` from `nere_internal.rs`. -/
structure Location where
  path : String
  line : Nat
  column : Nat
deriving DecidableEq, Repr

/-- `OpCode` from `nere_internal.rs`. `If`/`Else`/`Do`/`RBrace` carry an `isize`
jump offset (`-1` = unresolved). Rust keyword clashes are suffixed with `Op`. -/
inductive OpCode where
  | push
  | dup
  | add
  | sub
  | mul
  | div
  | lt
  | lte
  | gt
  | gte
  | eq
  | ne
  | ifOp (target : Int)
  | elseOp (target : Int)
  | whileOp
  | doOp (target : Int)
  | dump
  | halt
  | lbraceOp
  | rbraceOp (target : Int)
deriving DecidableEq, Repr

/-- `OpCode::as_byte`. -/
def OpCode.asByte : OpCode → Nat
  | .push => 0
  | .dup => 1
  | .add => 2
  | .sub => 3
  | .mul => 4
  | .div => 5
  | .lt => 6
  | .lte => 7
  | .gt => 8
  | .gte => 9
  | .eq => 10
  | .ne => 11
  | .ifOp _ => 12
  | .elseOp _ => 13
  | .whileOp => 14
  | .doOp _ => 15
  | .dump => 16
  | .halt => 17
  | .lbraceOp => 18
  | .rbraceOp _ => 19

/-- `impl From<u8> for OpCode`; the `_ => unreachable!()` arm is a panic,
modelled as `none`. Offset-carrying opcodes decode with offset `-1`. -/
def opCodeFromByte : Nat → Option OpCode
  | 0 => some .push
  | 1 => some .dup
  | 2 => some .add
  | 3 => some .sub
  | 4 => some .mul
  | 5 => some .div
  | 6 => some .lt
  | 7 => some .lte
  | 8 => some .gt
  | 9 => some .gte
  | 10 => some .eq
  | 11 => some .ne
  | 12 => some (.ifOp (-1))
  | 13 => some (.elseOp (-1))
  | 14 => some .whileOp
  | 15 => some (.doOp (-1))
  | 16 => some .dump
  | 17 => some .halt
  | 18 => some .lbraceOp
  | 19 => some (.rbraceOp (-1))
  | _ => none

/-- `Value` from `nere_internal.rs`: `Int32(i32)`, `UInt32(u32)`, `String`.
`i32` payloads are `Int` values in `[-2^31, 2^31)`; `u32` payloads are `Nat`
values below `2^32`; operations preserve these ranges (overflow panics). -/
inductive Value where
  | int32 (i : Int)
  | uint32 (u : Nat)
  | string (s : String)
deriving DecidableEq, Repr

/-- `Value::constant_type`. -/
def Value.constantType : Value → Nat
  | .int32 _ => 0
  | .uint32 _ => 1
  | .string _ => 2

/-- `Value::as_i32`: its `debug_assert!(self.constant_type() == 0)` passes
only for an `Int32` receiver, which the `if let` then returns; any other
receiver panics in the debug profile. -/
def Value.asI32 : Value → Option Int
  | .int32 i => some i
  | _ => none

/-- `Value::as_u32`: its `debug_assert!(self.constant_type() == 0)` is FALSE
for a `UInt32` receiver (whose tag is 1), so in the debug profile every call
on an actual `UInt32` (or `String`) panics; an `Int32` receiver passes the
assert, fails the `if let`, and falls through to the `return 0`. -/
def Value.asU32 : Value → Option Nat
  | .int32 _ => some 0
  | .uint32 _ => none
  | .string _ => none

/-- `Value::as_i32_implicit`: `Int32` passes through via `as_i32`; the
`UInt32` arm calls `self.as_u32()`, which panics in its assert (see
`Value.asU32`) before the `as i32` cast can happen; `String` hits
`unreachable!()`. So in the debug profile only `Int32` conditions coerce. -/
def Value.asI32Implicit : Value → Option Int
  | .int32 i => some i
  | .uint32 _ => none
  | .string _ => none

/-- `impl Add for Value` (debug profile). The leading
`debug_assert!(self.constant_type() == rhs.constant_type())` panics on any
mixed-tag pair, so the source's `String + Int32/UInt32` concatenation arms are
unreachable in this profile; `i32` addition panics on overflow; and the
`UInt32` arm panics unconditionally, because `rhs.as_u32()` fails its own
assert on an actual `UInt32` (see `Value.asU32`). -/
def valueAdd : Value → Value → Option Value
  | .int32 l, .int32 r => (i32chk (l + r)).map .int32
  | .uint32 _, .uint32 _ => none
  | .string l, .string r => some (.string (l ++ r))
  | _, _ => none

/-- `impl Sub for Value` (debug profile): mixed tags panic via the assert,
the `UInt32` arm panics in `rhs.as_u32()` (see `Value.asU32`) before the
subtraction, and the `String` arm is `todo!()` (panic). -/
def valueSub : Value → Value → Option Value
  | .int32 l, .int32 r => (i32chk (l - r)).map .int32
  | .uint32 _, .uint32 _ => none
  | .string _, .string _ => none
  | _, _ => none

/-- `impl Mul for Value` (debug profile): the `UInt32` arm panics in
`rhs.as_u32()` (see `Value.asU32`), the `String` arm is `todo!()`. -/
def valueMul : Value → Value → Option Value
  | .int32 l, .int32 r => (i32chk (l * r)).map .int32
  | .uint32 _, .uint32 _ => none
  | .string _, .string _ => none
  | _, _ => none

/-- `impl Div for Value` (debug profile): `i32` division by zero panics (the
`debug_assert!(rhs != 0)`, and Rust integer division itself), `i32` division
overflow (`MIN / -1`) panics, the `UInt32` arm panics in `rhs.as_u32()` (see
`Value.asU32`) before its zero check, and the `String` arm is `todo!()`.
Rust `i32` division truncates toward zero (`Int.tdiv`). -/
def valueDiv : Value → Value → Option Value
  | .int32 l, .int32 r =>
      if r = 0 then none else (i32chk (Int.tdiv l r)).map .int32
  | .uint32 _, .uint32 _ => none
  | .string _, .string _ => none
  | _, _ => none

/-- Comparison of `Int` values as an `Ordering` (Rust `Ord for i32`). -/
def intCmp (a b : Int) : Ordering :=
  if a < b then .lt else if a = b then .eq else .gt

/-- Comparison of `Nat` values as an `Ordering` (Rust `Ord for u32`). -/
def natCmp (a b : Nat) : Ordering :=
  if a < b then .lt else if a = b then .eq else .gt

/-- Lexicographic comparison of character lists by code point; Rust's
`Ord for String` compares UTF-8 bytes lexicographically, which coincides with
code-point order because UTF-8 is order-preserving. -/
def charsCmp : List Char → List Char → Ordering
  | [], [] => .eq
  | [], _ :: _ => .lt
  | _ :: _, [] => .gt
  | a :: as_, b :: bs =>
      match natCmp a.toNat b.toNat with
      | .eq => charsCmp as_ bs
      | o => o

/-- The `#[derive(PartialOrd, Ord)]` comparison on `Value`: variants compare by
declaration order (`Int32 < UInt32 < String`), same variants by payload. -/
def valueCmp : Value → Value → Ordering
  | .int32 a, .int32 b => intCmp a b
  | .uint32 a, .uint32 b => natCmp a b
  | .string a, .string b => charsCmp a.data b.data
  | a, b => natCmp a.constantType b.constantType

/-- Rust `lhs < rhs` on `Value` (derived `PartialOrd`). -/
def valueLt (a b : Value) : Bool := valueCmp a b == .lt

/-- Rust `lhs <= rhs` on `Value`. -/
def valueLte (a b : Value) : Bool := valueCmp a b ≠ .gt

/-- Rust `lhs > rhs` on `Value`. -/
def valueGt (a b : Value) : Bool := valueCmp a b == .gt

/-- Rust `lhs >= rhs` on `Value`. -/
def valueGte (a b : Value) : Bool := valueCmp a b ≠ .lt

/-- Rust `lhs == rhs` on `Value` (derived `PartialEq`, structural). -/
def valueBeq (a b : Value) : Bool := a = b

/-- `Error` from `nere_internal.rs`. -/
inductive Error where
  | runtimeError (msg : String)
  | segFault (ip : Nat) (msg : String)
  | parseError (msg : String)
  | compileError (msg : String) (loc : Location)
  | invalidFilepath (p : String)
  | invalidExtension (e : String)
  | failedToCreateFile (p : String)
  | invalidUTF8String
  | corruptedBinary
deriving DecidableEq, Repr

/-- `TokenType` from `nere_internal.rs`. The enum declaration in the shipped
`nere_internal.rs` lists `Instruction`, `Value`, `Error`, `Eof`; `lexer.rs` and
`compiler.rs` additionally construct and match `TokenType::LBrace` and
`TokenType::RBrace` (the spec's `OpenBlock`/`CloseBlock`), so those variants
are included here. -/
inductive TokenType where
  | instruction (op : OpCode)
  | value (v : Value)
  | lbrace
  | rbrace
  | error
  | eof
deriving DecidableEq, Repr

/-- `Token` from `nere_internal.rs`. -/
structure Token where
  typ3 : TokenType
  lexeme : String
  location : Location
deriving DecidableEq, Repr

/-- `ByteCode` from `nere_internal.rs`. -/
structure ByteCode where
  bytes : List Nat
  constants : List Value
deriving DecidableEq, Repr

/-- `utils::get_instruction_set` as a lookup function. -/
def instructionSet (s : String) : Option OpCode :=
  if s = "dup" then some .dup
  else if s = "if" then some (.ifOp (-1))
  else if s = "else" then some (.elseOp (-1))
  else if s = "while" then some .whileOp
  else if s = "do" then some (.doOp (-1))
  else none

/-! ## `lexer.rs`

The source keeps both the `String` (`source`, indexed by bytes in
`current_lexeme` and `is_at_end`) and its `Vec<char>` (`chars`, indexed by
`cursor`). The model keeps the character list only and treats `cursor`,
`start` and `line_start` as character indices; this is exact for ASCII
sources (where byte and character indices coincide), which is the regime the
repository's language uses. -/

/-- The lexer state (`Lexer` struct without the instruction-set field, which
is the fixed `instructionSet` map). -/
structure Lexer where
  path : String
  chars : List Char
  cursor : Nat
  start : Nat
  lineStart : Nat
  line : Nat
deriving DecidableEq, Repr

/-- `Lexer::is_at_end`. -/
def Lexer.isAtEnd (lx : Lexer) : Bool := lx.chars.length ≤ lx.cursor

/-- `Lexer::advance`: returns `'\0'` without moving at end of input. -/
def Lexer.advance (lx : Lexer) : Char × Lexer :=
  if lx.isAtEnd then (Char.ofNat 0, lx)
  else (lx.chars.getD lx.cursor (Char.ofNat 0), { lx with cursor := lx.cursor + 1 })

/-- `Lexer::peek`. -/
def Lexer.peek (lx : Lexer) : Char :=
  if lx.isAtEnd then Char.ofNat 0 else lx.chars.getD lx.cursor (Char.ofNat 0)

/-- `Lexer::matches`. -/
def Lexer.matchChar (lx : Lexer) (c : Char) : Bool × Lexer :=
  if lx.peek = c then (true, (lx.advance).2) else (false, lx)

/-- `Lexer::current_lexeme` (`source[start..cursor]`). -/
def Lexer.currentLexeme (lx : Lexer) : String :=
  String.mk ((lx.chars.drop lx.start).take (lx.cursor - lx.start))

/-- `Lexer::cursor_location`: the location of the cursor itself, i.e. the
position after whatever was consumed last. -/
def Lexer.cursorLocation (lx : Lexer) : Location :=
  ⟨lx.path, lx.line, lx.cursor - lx.lineStart⟩

/-- `Lexer::error_token`. -/
def Lexer.errorToken (lx : Lexer) (msg : String) : Token :=
  ⟨.error, msg, lx.cursorLocation⟩

/-- `Lexer::make_token`. -/
def Lexer.makeToken (lx : Lexer) (typ3 : TokenType) (lexeme : String) : Token :=
  ⟨typ3, lexeme, lx.cursorLocation⟩

/-- The digit-run loop `while self.peek().is_ascii_digit() { self.advance(); }`. -/
def consumeDigits : Nat → Lexer → Lexer
  | 0, lx => lx
  | fuel + 1, lx =>
      if (lx.peek).isDigit then consumeDigits fuel (lx.advance).2 else lx

/-- The identifier loop
`while self.peek().is_alphabetic() && !self.is_at_end() { self.advance(); }`.
Rust `is_alphabetic` is Unicode-alphabetic; `Char.isAlpha` agrees on ASCII. -/
def consumeAlpha : Nat → Lexer → Lexer
  | 0, lx => lx
  | fuel + 1, lx =>
      if (lx.peek).isAlpha && !lx.isAtEnd then consumeAlpha fuel (lx.advance).2 else lx

/-- The string-literal loop: consume until `"` or end of input, tracking
newlines (`line += 1; line_start = cursor`). -/
def consumeStr : Nat → Lexer → Lexer
  | 0, lx => lx
  | fuel + 1, lx =>
      if !lx.isAtEnd && lx.peek ≠ '"' then
        let lx := if lx.peek = '\n'
          then { lx with line := lx.line + 1, lineStart := lx.cursor } else lx
        consumeStr fuel (lx.advance).2
      else lx

/-- `lexeme.parse::<i32>().unwrap()` on an all-digit lexeme: `none` models the
unwrap panic on overflow. -/
def parseI32 (s : String) : Option Int :=
  let n : Nat := s.data.foldl (fun acc c => acc * 10 + (c.toNat - 48)) 0
  if n ≤ 2 ^ 31 - 1 then some (n : Int) else none

/-- The digit-initial branch of the scan loop: maximal digit run, parsed as
`Int32` (panicking on `i32` overflow). -/
def scanNumber (fuel : Nat) (lx : Lexer) : Option (Option Token × Lexer) :=
  let lx := consumeDigits fuel lx
  let lexeme := lx.currentLexeme
  match parseI32 lexeme with
  | none => none
  | some n => some (some (lx.makeToken (.value (.int32 n)) lexeme), lx)

/-- The alphabetic branch of the scan loop: maximal alphabetic run, looked up
in the instruction set; unknown identifiers yield an error token. -/
def scanIdent (fuel : Nat) (lx : Lexer) : Option (Option Token × Lexer) :=
  let lx := consumeAlpha fuel lx
  let lexeme := lx.currentLexeme
  match instructionSet lexeme with
  | some op => some (some (lx.makeToken (.instruction op) lexeme), lx)
  | none =>
      some (some (lx.errorToken ("unknown identifier '" ++ lexeme ++ "'")), lx)

/-- The `'"'` branch of the scan loop: consume the literal body, then either an
unterminated-string error token or a string value token with the quotes
stripped (`lexeme.remove(0); lexeme.remove(lexeme.len() - 1)`). -/
def scanStringLit (fuel : Nat) (lx : Lexer) : Option (Option Token × Lexer) :=
  let lx := consumeStr fuel lx
  if lx.peek ≠ '"' then
    some (some (lx.errorToken "unterminated string literal"), lx)
  else
    let lx := (lx.advance).2
    let inner := String.mk (((lx.currentLexeme).data.drop 1).dropLast)
    some (some (lx.makeToken (.value (.string inner)) inner), lx)

/-- The `match c` of the scan-loop body, for a non-digit non-alphabetic `c`
already consumed by `advance`. -/
def scanSymbol (fuel : Nat) (c : Char) (lx : Lexer) : Option (Option Token × Lexer) :=
  if c = '{' then
    some (some (lx.makeToken .lbrace lx.currentLexeme), lx)
  else if c = '}' then
    some (some (lx.makeToken .rbrace lx.currentLexeme), lx)
  else if c = '+' then
    some (some (lx.makeToken (.instruction .add) lx.currentLexeme), lx)
  else if c = '-' then
    some (some (lx.makeToken (.instruction .sub) lx.currentLexeme), lx)
  else if c = '*' then
    some (some (lx.makeToken (.instruction .mul) lx.currentLexeme), lx)
  else if c = '/' then
    -- `if self.matches('/') { /* comments */ } else { emit Div }`: the
    -- then-branch of the source is an empty block.
    if (lx.matchChar '/').1 then some (none, (lx.matchChar '/').2)
    else
      some (some ((lx.matchChar '/').2.makeToken (.instruction .div)
        (lx.matchChar '/').2.currentLexeme), (lx.matchChar '/').2)
  else if c = '<' then
    if (lx.matchChar '=').1 then
      some (some ((lx.matchChar '=').2.makeToken (.instruction .lte)
        (lx.matchChar '=').2.currentLexeme), (lx.matchChar '=').2)
    else
      some (some ((lx.matchChar '=').2.makeToken (.instruction .lt)
        (lx.matchChar '=').2.currentLexeme), (lx.matchChar '=').2)
  else if c = '>' then
    if (lx.matchChar '=').1 then
      some (some ((lx.matchChar '=').2.makeToken (.instruction .gte)
        (lx.matchChar '=').2.currentLexeme), (lx.matchChar '=').2)
    else
      some (some ((lx.matchChar '=').2.makeToken (.instruction .gt)
        (lx.matchChar '=').2.currentLexeme), (lx.matchChar '=').2)
  else if c = '=' then
    some (some (lx.makeToken (.instruction .eq) lx.currentLexeme), lx)
  else if c = '!' then
    some (some (lx.makeToken (.instruction .ne) lx.currentLexeme), lx)
  else if c = '.' then
    some (some (lx.makeToken (.instruction .dump) lx.currentLexeme), lx)
  else if c = '"' then
    scanStringLit fuel lx
  else if c = '\r' ∨ c = '\t' ∨ c = ' ' then
    some (none, lx)
  else if c = '\n' then
    some (none, { lx with line := lx.line + 1, lineStart := lx.cursor })
  else
    some (some (lx.errorToken ("unexpected character '" ++ String.mk [c] ++ "'")), lx)

/-- One iteration of the body of `Lexer::scan_tokens`'s `while` loop: sets
`start := cursor`, consumes one lexeme, and returns the emitted token (if
any) together with the updated state; `none` models a panic. -/
def scanIter (fuel : Nat) (lx0 : Lexer) : Option (Option Token × Lexer) :=
  let lx := { lx0 with start := lx0.cursor }
  let (c, lx) := lx.advance
  if c.isDigit then scanNumber fuel lx
  else if c.isAlpha then scanIdent fuel lx
  else scanSymbol fuel c lx

/-- The `while !self.is_at_end()` loop of `Lexer::scan_tokens`, followed by the
final `Eof` token. -/
def scanLoop : Nat → Lexer → List Token → Option (List Token)
  | 0, _, _ => none
  | fuel + 1, lx, acc =>
      if lx.isAtEnd then some (acc ++ [lx.makeToken .eof lx.currentLexeme])
      else
        match scanIter (lx.chars.length + 1) lx with
        | none => none
        | some (t?, lx') => scanLoop fuel lx' (acc ++ t?.toList)

/-- `Lexer::scan_tokens` on a source string (file reading is external). -/
def scanTokens (path source : String) : Option (List Token) :=
  scanLoop (source.data.length + 1) ⟨path, source.data, 0, 0, 0, 1⟩ []

/-! ## `compiler.rs`: the backpatch pass, verification, and byte emission -/

/-- The body of `Compiler::preprocess_program`'s `loop`, with explicit state:
`tokens` (mutated in place by backpatching), the pending-block `stack` of
token indices, the token index `count`, the byte-offset counter `ip`, and the
`hit_else_block` flag. `none` models a panic (out-of-bounds index, failed
`unwrap`) or fuel exhaustion (the source loops forever on an `Error` token,
which never advances `count`). -/
def ppLoop (fuel : Nat) (tokens : List Token) (stack : List Nat)
    (count ip : Nat) (hitElse : Bool) : Option (Except Error (List Token)) :=
  match fuel with
  | 0 => none
  | fuel + 1 =>
    match tokens[count]? with
    | none => none
    | some tok =>
      match tok.typ3 with
      | .instruction op =>
        match op with
        | .push | .add | .sub | .mul | .div | .lt | .lte | .gt | .gte
        | .eq | .ne | .dump | .halt =>
            ppLoop fuel tokens stack (count + 1) (ip + 1) hitElse
        | .ifOp _ => ppLoop fuel tokens (count :: stack) (count + 1) (ip + 9) hitElse
        | .elseOp _ =>
          match stack with
          | [] => none
          | ifIp :: stack' =>
            match tokens[ifIp]? with
            | none => none
            | some t2 =>
              match t2.typ3 with
              | .instruction _ =>
                  ppLoop fuel
                    (tokens.set ifIp { t2 with typ3 := .instruction (.ifOp (ip : Int)) })
                    (count :: stack') (count + 1) (ip + 9) true
              | _ => some (.error (.compileError "'end' can only close if blocks" t2.location))
        -- `Dup`, `While`, `Do`, `LBrace`, `RBrace` have no arm in the source
        -- match (spec §9: reserved opcodes, not wired into the compiler).
        | _ => none
      | .value _ => ppLoop fuel tokens stack (count + 1) (ip + 9) hitElse
      | .lbrace => ppLoop fuel tokens stack (count + 1) ip hitElse
      | .rbrace =>
        match stack with
        | [] => ppLoop fuel tokens stack (count + 1) ip hitElse
        | topIp :: stack' =>
          if hitElse then
            match tokens[topIp]? with
            | none => none
            | some t2 =>
              match t2.typ3 with
              | .instruction _ =>
                  ppLoop fuel
                    (tokens.set topIp { t2 with typ3 := .instruction (.elseOp (ip : Int)) })
                    stack' (count + 1) ip false
              | _ => some (.error (.compileError
                  "failed to cross reference 'else' token with return address" t2.location))
          else
            match tokens[count + 1]? with
            | none => none
            | some nt =>
              match nt.typ3 with
              | .instruction (.elseOp _) =>
                  ppLoop fuel tokens (topIp :: stack') (count + 1) ip hitElse
              | _ =>
                match tokens[topIp]? with
                | none => none
                | some t2 =>
                  match t2.typ3 with
                  | .instruction _ =>
                      ppLoop fuel
                        (tokens.set topIp { t2 with typ3 := .instruction (.ifOp (ip : Int)) })
                        stack' (count + 1) ip hitElse
                  | _ => some (.error (.compileError
                      "failed to cross reference 'if' token with return address" t2.location))
      | .error => ppLoop fuel tokens stack count ip hitElse
      | .eof => some (.ok tokens)

/-- `Compiler::preprocess_program`: the loop processes each token once (the
`Eof` token terminates), so `tokens.length + 1` fuel is exact for any
error-free stream. -/
def preprocessProgram (tokens : List Token) : Option (Except Error (List Token)) :=
  ppLoop (tokens.length + 1) tokens [] 0 0 false

/-- `Compiler::verify_cross_reference_blocks`: any `If`/`Else` token whose
jump target is still negative is a compile error (diagnostic text
abbreviated; the source message also suggests brace usage). -/
def verifyCrossReference : List Token → Except Error Unit
  | [] => .ok ()
  | t :: rest =>
    match t.typ3 with
    | .instruction (.ifOp r) =>
        if r < 0 then
          .error (.compileError
            "invalid return address, block was not referenced with end instruction pointer"
            t.location)
        else verifyCrossReference rest
    | .instruction (.elseOp r) =>
        if r < 0 then
          .error (.compileError
            "invalid return address, block was not referenced with end instruction pointer"
            t.location)
        else verifyCrossReference rest
    | _ => verifyCrossReference rest

/-- `Compiler::bytes_from_token`: serialize one token into the growing
`ByteCode`. The `Error` arm is `unreachable!()` (panic, `none`); the `Eof` arm
emits `Halt` and splices the 8-byte `halt_index` header onto the front. -/
def bytesFromToken (bc : ByteCode) (t : Token) : Option ByteCode :=
  match t.typ3 with
  | .instruction op =>
    match op with
    | .ifOp r => some { bc with bytes := bc.bytes ++ (OpCode.ifOp r).asByte :: encodeI64 r }
    | .elseOp r => some { bc with bytes := bc.bytes ++ (OpCode.elseOp r).asByte :: encodeI64 r }
    | _ => some { bc with bytes := bc.bytes ++ [op.asByte] }
  | .value v =>
      some { bytes := bc.bytes ++ OpCode.push.asByte :: encode64 bc.constants.length,
             constants := bc.constants ++ [v] }
  | .lbrace => some bc
  | .rbrace => some bc
  | .error => none
  | .eof =>
      let bs := bc.bytes ++ [OpCode.halt.asByte]
      some { bc with bytes := encode64 (bs.length - 1) ++ bs }

/-- The emission loop of `Compiler::compile` over the resolved token stream. -/
def emitTokens : ByteCode → List Token → Option ByteCode
  | bc, [] => some bc
  | bc, t :: rest =>
    match bytesFromToken bc t with
    | none => none
    | some bc' => emitTokens bc' rest

/-- UTF-8 encoding of one character (`str::as_bytes`). -/
def utf8EncodeChar (c : Char) : List Nat :=
  let n := c.toNat
  if n < 0x80 then [n]
  else if n < 0x800 then [0xC0 + n / 64, 0x80 + n % 64]
  else if n < 0x10000 then [0xE0 + n / 4096, 0x80 + n / 64 % 64, 0x80 + n % 64]
  else [0xF0 + n / 262144, 0x80 + n / 4096 % 64, 0x80 + n / 64 % 64, 0x80 + n % 64]

/-- UTF-8 byte sequence of a string (`String::as_bytes`); `String::len` is the
length of this sequence. -/
def utf8Encode (s : String) : List Nat := s.data.flatMap utf8EncodeChar

/-- `Compiler::constants_to_bytes`: tag byte, then the native-endian payload
(4 bytes for the integer types; 8-byte length plus raw UTF-8 for strings). -/
def constantsToBytes : List Value → List Nat
  | [] => []
  | .int32 i :: rest => 0 :: encodeI32 i ++ constantsToBytes rest
  | .uint32 u :: rest => 1 :: encodeLEn 4 u ++ constantsToBytes rest
  | .string s :: rest =>
      2 :: encode64 (utf8Encode s).length ++ utf8Encode s ++ constantsToBytes rest

/-- The core of `Compiler::compile` after lexing (file/path handling and
console output are external): abort with a `ParseError` batch if any `Error`
token exists, then backpatch, verify, emit, and append the constant pool. The
parse-error message is the concatenated per-token diagnostics. -/
def compileBin (tokens : List Token) : Option (Except Error (List Nat)) :=
  let errs := tokens.filter (fun t => t.typ3 = TokenType.error)
  if errs ≠ [] then
    some (.error (.parseError (String.intercalate "\n"
      (errs.map (fun t =>
        "<" ++ t.location.path ++ ":" ++ toString t.location.line ++ ":"
          ++ toString t.location.column ++ "> parse error: " ++ t.lexeme)))))
  else
    match preprocessProgram tokens with
    | none => none
    | some (.error e) => some (.error e)
    | some (.ok toks) =>
      match verifyCrossReference toks with
      | .error e => some (.error e)
      | .ok _ =>
        match emitTokens ⟨[], []⟩ toks with
        | none => none
        | some bc => some (.ok (bc.bytes ++ constantsToBytes bc.constants))

/-! ## `virtual_machine.rs`: loader and execution -/

/-- UTF-8 validation/decoding (`String::from_utf8`): `none` on any invalid
sequence (continuation-byte ranges, overlong forms, surrogates, out-of-range
code points all rejected, as in Rust). -/
def utf8Decode : List Nat → Option (List Char)
  | [] => some []
  | b :: rest =>
    if b < 0x80 then (utf8Decode rest).map (Char.ofNat b :: ·)
    else if b < 0xC2 then none
    else if b < 0xE0 then
      match rest with
      | b1 :: rest' =>
          if 0x80 ≤ b1 ∧ b1 < 0xC0 then
            (utf8Decode rest').map (Char.ofNat ((b - 0xC0) * 64 + (b1 - 0x80)) :: ·)
          else none
      | [] => none
    else if b < 0xF0 then
      match rest with
      | b1 :: b2 :: rest' =>
          let lo := if b = 0xE0 then 0xA0 else 0x80
          let hi := if b = 0xED then 0xA0 else 0xC0
          if lo ≤ b1 ∧ b1 < hi ∧ 0x80 ≤ b2 ∧ b2 < 0xC0 then
            (utf8Decode rest').map
              (Char.ofNat ((b - 0xE0) * 4096 + (b1 - 0x80) * 64 + (b2 - 0x80)) :: ·)
          else none
      | _ => none
    else if b < 0xF5 then
      match rest with
      | b1 :: b2 :: b3 :: rest' =>
          let lo := if b = 0xF0 then 0x90 else 0x80
          let hi := if b = 0xF4 then 0x90 else 0xC0
          if lo ≤ b1 ∧ b1 < hi ∧ 0x80 ≤ b2 ∧ b2 < 0xC0 ∧ 0x80 ≤ b3 ∧ b3 < 0xC0 then
            (utf8Decode rest').map
              (Char.ofNat ((b - 0xF0) * 262144 + (b1 - 0x80) * 4096
                + (b2 - 0x80) * 64 + (b3 - 0x80)) :: ·)
          else none
      | _ => none
    else none

/-- `VirtualMachine::load_constants`: pop a tag byte, then decode the typed
payload; truncated payloads panic (`drain` out of range, `none`), a tag above
2 is `unreachable!()`, and invalid UTF-8 string bytes return
`Err(InvalidUTF8String)`. Each iteration consumes at least the tag byte, so
`length + 1` fuel is exact. -/
def loadConstants (fuel : Nat) (cb : List Nat) (acc : List Value) :
    Option (Except Error (List Value)) :=
  match fuel with
  | 0 => none
  | fuel + 1 =>
    match cb with
    | [] => some (.ok acc)
    | t :: rest =>
      match t with
      | 0 =>
          if rest.length < 4 then none
          else loadConstants fuel (rest.drop 4) (acc ++ [.int32 (decodeI32 (rest.take 4))])
      | 1 =>
          if rest.length < 4 then none
          else loadConstants fuel (rest.drop 4) (acc ++ [.uint32 (decode32 (rest.take 4))])
      | 2 =>
          if rest.length < 8 then none
          else
            let len := decode64 (rest.take 8)
            let rest2 := rest.drop 8
            if rest2.length < len then none
            else
              match utf8Decode (rest2.take len) with
              | some cs =>
                  loadConstants fuel (rest2.drop len) (acc ++ [.string (String.mk cs)])
              | none => some (.error .invalidUTF8String)
      | _ => none

/-- `VirtualMachine::load_binary` on the raw file bytes (path existence and
extension checks are external caller-side concerns per the spec): an empty
file returns `Err(CorruptedBinary)`; fewer than 8 bytes makes
`drain(0..=7)` panic; a declared `halt_index` with `halt_index + 1` beyond the
remaining stream makes `drain(halt_index + 1..)` panic; otherwise the stream
splits into instruction bytes and the constant pool. -/
def loadBinary (bytes : List Nat) : Option (Except Error ByteCode) :=
  if bytes = [] then some (.error .corruptedBinary)
  else if bytes.length < 8 then none
  else
    let haltIndex := decode64 (bytes.take 8)
    let rest := bytes.drop 8
    if rest.length < haltIndex + 1 then none
    else
      match loadConstants (rest.length + 1) (rest.drop (haltIndex + 1)) [] with
      | none => none
      | some (.error e) => some (.error e)
      | some (.ok cs) => some (.ok ⟨rest.take (haltIndex + 1), cs⟩)

/-- The `loop` of `VirtualMachine::execute`, with the `jmp_to_end` flag as
explicit state. `jmp_to_end` starts `false` and is set (never cleared) when an
`If` pops a condition whose implicit `i32` coercion equals 1. Reading the
8-byte operand past the end of `bytes` models the slice panic; the
`as usize` cast of a negative jump target yields its unsigned 64-bit reading,
which is why the target is read with `decode64`. `Dup`, `While`, `Do`,
`LBrace` and `RBrace` have no arm in the source dispatch. -/
def execLoop (fuel : Nat) (bytes : List Nat) (constants : List Value)
    (stack : List Value) (ip : Nat) (jmpToEnd : Bool) :
    Option (Except Error (List Value)) :=
  match fuel with
  | 0 => none
  | fuel + 1 =>
    if bytes.length ≤ ip then some (.ok stack)
    else
      match opCodeFromByte (bytes.getD ip 0) with
      | none => none
      | some opcode =>
        match opcode with
        | .push =>
            if bytes.length < ip + 9 then none
            else
              match constants[decode64 ((bytes.drop (ip + 1)).take 8)]? with
              | none => none
              | some v => execLoop fuel bytes constants (v :: stack) (ip + 9) jmpToEnd
        | .add =>
            match stack with
            | rhs :: lhs :: rest =>
              match valueAdd lhs rhs with
              | some v => execLoop fuel bytes constants (v :: rest) (ip + 1) jmpToEnd
              | none => none
            | _ => none
        | .sub =>
            match stack with
            | rhs :: lhs :: rest =>
              match valueSub lhs rhs with
              | some v => execLoop fuel bytes constants (v :: rest) (ip + 1) jmpToEnd
              | none => none
            | _ => none
        | .mul =>
            match stack with
            | rhs :: lhs :: rest =>
              match valueMul lhs rhs with
              | some v => execLoop fuel bytes constants (v :: rest) (ip + 1) jmpToEnd
              | none => none
            | _ => none
        | .div =>
            match stack with
            | rhs :: lhs :: rest =>
              match valueDiv lhs rhs with
              | some v => execLoop fuel bytes constants (v :: rest) (ip + 1) jmpToEnd
              | none => none
            | _ => none
        | .lt =>
            match stack with
            | rhs :: lhs :: rest =>
                execLoop fuel bytes constants
                  (.int32 (if valueLt lhs rhs then 1 else 0) :: rest) (ip + 1) jmpToEnd
            | _ => none
        | .lte =>
            match stack with
            | rhs :: lhs :: rest =>
                execLoop fuel bytes constants
                  (.int32 (if valueLte lhs rhs then 1 else 0) :: rest) (ip + 1) jmpToEnd
            | _ => none
        | .gt =>
            match stack with
            | rhs :: lhs :: rest =>
                execLoop fuel bytes constants
                  (.int32 (if valueGt lhs rhs then 1 else 0) :: rest) (ip + 1) jmpToEnd
            | _ => none
        | .gte =>
            match stack with
            | rhs :: lhs :: rest =>
                execLoop fuel bytes constants
                  (.int32 (if valueGte lhs rhs then 1 else 0) :: rest) (ip + 1) jmpToEnd
            | _ => none
        | .eq =>
            match stack with
            | rhs :: lhs :: rest =>
                execLoop fuel bytes constants
                  (.int32 (if valueBeq lhs rhs then 1 else 0) :: rest) (ip + 1) jmpToEnd
            | _ => none
        | .ne =>
            match stack with
            | rhs :: lhs :: rest =>
                execLoop fuel bytes constants
                  (.int32 (if !valueBeq lhs rhs then 1 else 0) :: rest) (ip + 1) jmpToEnd
            | _ => none
        | .ifOp _ =>
            match stack with
            | [] => none
            | v :: rest =>
              if bytes.length < ip + 9 then none
              else
                let target := decode64 ((bytes.drop (ip + 1)).take 8)
                match v.asI32Implicit with
                | none => none
                | some c =>
                  if c = 1 then execLoop fuel bytes constants rest (ip + 9) true
                  else if bytes.length ≤ target then
                    some (.error (.segFault (ip + 9) "attempting to access restricted memory"))
                  else execLoop fuel bytes constants rest target jmpToEnd
        | .elseOp _ =>
            if bytes.length < ip + 9 then none
            else
              let target := decode64 ((bytes.drop (ip + 1)).take 8)
              if jmpToEnd then
                if bytes.length ≤ target then
                  some (.error (.segFault (ip + 9) "attempting to access restricted memory"))
                else execLoop fuel bytes constants stack target jmpToEnd
              else execLoop fuel bytes constants stack (ip + 9) jmpToEnd
        | .dump =>
            match stack with
            | _ :: rest => execLoop fuel bytes constants rest (ip + 1) jmpToEnd
            | [] => none
        | .halt => some (.ok stack)
        | _ => none

/-- The whole pipeline on a resolved token stream: compile to a binary,
load it back, and execute with an empty stack from `ip = 0`. -/
def runProgram (fuel : Nat) (tokens : List Token) : Option (Except Error (List Value)) :=
  match compileBin tokens with
  | none => none
  | some (.error e) => some (.error e)
  | some (.ok bin) =>
    match loadBinary bin with
    | none => none
    | some (.error e) => some (.error e)
    | some (.ok bc) => execLoop fuel bc.bytes bc.constants [] 0 false

/-- The whole pipeline from source text. -/
def runSource (fuel : Nat) (path source : String) : Option (Except Error (List Value)) :=
  match scanTokens path source with
  | none => none
  | some tokens => runProgram fuel tokens

/-! ## Single-step characterisations of the VM dispatch -/

/-- An `Add` byte pops rhs first, lhs second, and pushes `lhs + rhs`. -/
theorem execLoop_add_step (fuel : Nat) (bytes : List Nat) (constants : List Value)
    (rest : List Value) (lhs rhs : Value) (ip : Nat) (flag : Bool)
    (hip : ip < bytes.length) (hb : bytes.getD ip 0 = 2) :
    execLoop (fuel + 1) bytes constants (rhs :: lhs :: rest) ip flag =
      match valueAdd lhs rhs with
      | some v => execLoop fuel bytes constants (v :: rest) (ip + 1) flag
      | none => none := by
  simp only [execLoop, hb]
  rw [if_neg (by omega)]
  rfl

/-- A `Sub` byte pops rhs first, lhs second, and pushes `lhs - rhs`. -/
theorem execLoop_sub_step (fuel : Nat) (bytes : List Nat) (constants : List Value)
    (rest : List Value) (lhs rhs : Value) (ip : Nat) (flag : Bool)
    (hip : ip < bytes.length) (hb : bytes.getD ip 0 = 3) :
    execLoop (fuel + 1) bytes constants (rhs :: lhs :: rest) ip flag =
      match valueSub lhs rhs with
      | some v => execLoop fuel bytes constants (v :: rest) (ip + 1) flag
      | none => none := by
  simp only [execLoop, hb]
  rw [if_neg (by omega)]
  rfl

/-- A `Mul` byte pops rhs first, lhs second, and pushes `lhs * rhs`. -/
theorem execLoop_mul_step (fuel : Nat) (bytes : List Nat) (constants : List Value)
    (rest : List Value) (lhs rhs : Value) (ip : Nat) (flag : Bool)
    (hip : ip < bytes.length) (hb : bytes.getD ip 0 = 4) :
    execLoop (fuel + 1) bytes constants (rhs :: lhs :: rest) ip flag =
      match valueMul lhs rhs with
      | some v => execLoop fuel bytes constants (v :: rest) (ip + 1) flag
      | none => none := by
  simp only [execLoop, hb]
  rw [if_neg (by omega)]
  rfl

/-- A `Div` byte pops rhs first, lhs second, and pushes `lhs / rhs`. -/
theorem execLoop_div_step (fuel : Nat) (bytes : List Nat) (constants : List Value)
    (rest : List Value) (lhs rhs : Value) (ip : Nat) (flag : Bool)
    (hip : ip < bytes.length) (hb : bytes.getD ip 0 = 5) :
    execLoop (fuel + 1) bytes constants (rhs :: lhs :: rest) ip flag =
      match valueDiv lhs rhs with
      | some v => execLoop fuel bytes constants (v :: rest) (ip + 1) flag
      | none => none := by
  simp only [execLoop, hb]
  rw [if_neg (by omega)]
  rfl

/-- An `Lt` byte pops rhs first, lhs second, and pushes `Int32(lhs < rhs)`. -/
theorem execLoop_lt_step (fuel : Nat) (bytes : List Nat) (constants : List Value)
    (rest : List Value) (lhs rhs : Value) (ip : Nat) (flag : Bool)
    (hip : ip < bytes.length) (hb : bytes.getD ip 0 = 6) :
    execLoop (fuel + 1) bytes constants (rhs :: lhs :: rest) ip flag =
      execLoop fuel bytes constants
        (.int32 (if valueLt lhs rhs then 1 else 0) :: rest) (ip + 1) flag := by
  simp only [execLoop, hb]
  rw [if_neg (by omega)]
  rfl

/-- An `Lte` byte pops rhs first, lhs second, and pushes `Int32(lhs <= rhs)`. -/
theorem execLoop_lte_step (fuel : Nat) (bytes : List Nat) (constants : List Value)
    (rest : List Value) (lhs rhs : Value) (ip : Nat) (flag : Bool)
    (hip : ip < bytes.length) (hb : bytes.getD ip 0 = 7) :
    execLoop (fuel + 1) bytes constants (rhs :: lhs :: rest) ip flag =
      execLoop fuel bytes constants
        (.int32 (if valueLte lhs rhs then 1 else 0) :: rest) (ip + 1) flag := by
  simp only [execLoop, hb]
  rw [if_neg (by omega)]
  rfl

/-- A `Gt` byte pops rhs first, lhs second, and pushes `Int32(lhs > rhs)`. -/
theorem execLoop_gt_step (fuel : Nat) (bytes : List Nat) (constants : List Value)
    (rest : List Value) (lhs rhs : Value) (ip : Nat) (flag : Bool)
    (hip : ip < bytes.length) (hb : bytes.getD ip 0 = 8) :
    execLoop (fuel + 1) bytes constants (rhs :: lhs :: rest) ip flag =
      execLoop fuel bytes constants
        (.int32 (if valueGt lhs rhs then 1 else 0) :: rest) (ip + 1) flag := by
  simp only [execLoop, hb]
  rw [if_neg (by omega)]
  rfl

/-- A `Gte` byte pops rhs first, lhs second, and pushes `Int32(lhs >= rhs)`. -/
theorem execLoop_gte_step (fuel : Nat) (bytes : List Nat) (constants : List Value)
    (rest : List Value) (lhs rhs : Value) (ip : Nat) (flag : Bool)
    (hip : ip < bytes.length) (hb : bytes.getD ip 0 = 9) :
    execLoop (fuel + 1) bytes constants (rhs :: lhs :: rest) ip flag =
      execLoop fuel bytes constants
        (.int32 (if valueGte lhs rhs then 1 else 0) :: rest) (ip + 1) flag := by
  simp only [execLoop, hb]
  rw [if_neg (by omega)]
  rfl

/-- An `Eq` byte pops rhs first, lhs second, and pushes `Int32(lhs == rhs)`. -/
theorem execLoop_eq_step (fuel : Nat) (bytes : List Nat) (constants : List Value)
    (rest : List Value) (lhs rhs : Value) (ip : Nat) (flag : Bool)
    (hip : ip < bytes.length) (hb : bytes.getD ip 0 = 10) :
    execLoop (fuel + 1) bytes constants (rhs :: lhs :: rest) ip flag =
      execLoop fuel bytes constants
        (.int32 (if valueBeq lhs rhs then 1 else 0) :: rest) (ip + 1) flag := by
  simp only [execLoop, hb]
  rw [if_neg (by omega)]
  rfl

/-- An `Ne` byte pops rhs first, lhs second, and pushes `Int32(lhs != rhs)`. -/
theorem execLoop_ne_step (fuel : Nat) (bytes : List Nat) (constants : List Value)
    (rest : List Value) (lhs rhs : Value) (ip : Nat) (flag : Bool)
    (hip : ip < bytes.length) (hb : bytes.getD ip 0 = 11) :
    execLoop (fuel + 1) bytes constants (rhs :: lhs :: rest) ip flag =
      execLoop fuel bytes constants
        (.int32 (if !valueBeq lhs rhs then 1 else 0) :: rest) (ip + 1) flag := by
  simp only [execLoop, hb]
  rw [if_neg (by omega)]
  rfl

/-- An `If` byte pops the condition, reads the 8-byte target; if the implicit
`i32` coercion of the condition equals 1 it continues in sequence and sets the
`jmp_to_end` flag, otherwise it jumps to the target (segfaulting if the target
is out of bounds). -/
theorem execLoop_if_step (fuel : Nat) (bytes : List Nat) (constants : List Value)
    (rest : List Value) (v : Value) (c : Int) (ip : Nat) (flag : Bool)
    (hip : ip + 9 ≤ bytes.length) (hb : bytes.getD ip 0 = 12)
    (hc : v.asI32Implicit = some c) :
    execLoop (fuel + 1) bytes constants (v :: rest) ip flag =
      (if c = 1 then execLoop fuel bytes constants rest (ip + 9) true
       else if bytes.length ≤ decode64 ((bytes.drop (ip + 1)).take 8) then
         some (.error (.segFault (ip + 9) "attempting to access restricted memory"))
       else execLoop fuel bytes constants rest
         (decode64 ((bytes.drop (ip + 1)).take 8)) flag) := by
  simp only [execLoop, hb]
  rw [if_neg (by omega)]
  show (if bytes.length < ip + 9 then none else _) = _
  rw [if_neg (by omega), hc]

/-- An `Else` byte reads the 8-byte target and jumps there exactly when the
`jmp_to_end` flag is set; otherwise it falls through. -/
theorem execLoop_else_step (fuel : Nat) (bytes : List Nat) (constants : List Value)
    (stack : List Value) (ip : Nat) (flag : Bool)
    (hip : ip + 9 ≤ bytes.length) (hb : bytes.getD ip 0 = 13) :
    execLoop (fuel + 1) bytes constants stack ip flag =
      (if flag then
         if bytes.length ≤ decode64 ((bytes.drop (ip + 1)).take 8) then
           some (.error (.segFault (ip + 9) "attempting to access restricted memory"))
         else execLoop fuel bytes constants stack
           (decode64 ((bytes.drop (ip + 1)).take 8)) flag
       else execLoop fuel bytes constants stack (ip + 9) flag) := by
  simp only [execLoop, hb]
  rw [if_neg (by omega)]
  show (if bytes.length < ip + 9 then none else _) = _
  rw [if_neg (by omega)]

/-! ## Claim C4: opcode decode vs encode -/

/-- The decode table's effect on an encoded opcode: opcodes without a carried
offset come back unchanged; `If`/`Else`/`Do`/`RBrace` come back with offset
`-1` (the byte does not carry the offset). -/
def OpCode.eraseOffsets : OpCode → OpCode
  | .ifOp _ => .ifOp (-1)
  | .elseOp _ => .elseOp (-1)
  | .doOp _ => .doOp (-1)
  | .rbraceOp _ => .rbraceOp (-1)
  | op => op

/-- C4 (amended): decoding the byte produced by encoding an opcode yields the
opcode back for every offset-free opcode, and yields the opcode with its
carried offset replaced by `-1` for `If`, `Else`, `Do` and `RBrace`; the
round trip is the identity exactly on opcodes whose carried offset is `-1`. -/
theorem c4_decode_encode_amended (op : OpCode) :
    opCodeFromByte op.asByte = some op.eraseOffsets := by
  cases op <;> rfl

/-- C4 counterexample: `OpCode::from((If(5)).as_byte())` is `If(-1)`, not
`If(5)`, so the decode table is not the exact inverse of the encode table on
opcodes carrying an offset other than `-1`. -/
theorem c4_roundtrip_counterexample :
    opCodeFromByte ((OpCode.ifOp 5).asByte) = some (OpCode.ifOp (-1)) ∧
      opCodeFromByte ((OpCode.ifOp 5).asByte) ≠ some (OpCode.ifOp 5) := by
  exact ⟨rfl, by decide⟩

/-- C4 witness: the amended round trip evaluated at `Halt` and at `If(5)`. -/
theorem c4_decode_encode_witness :
    opCodeFromByte (OpCode.halt).asByte = some (OpCode.halt).eraseOffsets ∧
      opCodeFromByte ((OpCode.ifOp 5).asByte) = some (OpCode.ifOp 5).eraseOffsets :=
  ⟨c4_decode_encode_amended .halt, c4_decode_encode_amended (.ifOp 5)⟩

/-! ## Claim C10: mixed-tag comparisons -/

/-- C10: the derived ordering on `Value` places every `Int32` strictly below
every `UInt32` and every `UInt32` strictly below every `String`; each VM
comparison instruction on mixed-tag operands succeeds (pushing `Int32 1` or
`Int32 0` by that variant order) instead of faulting, while every mixed-tag
arithmetic instruction is a fault. -/
theorem c10_mixed_tag_comparisons :
    (∀ i u, valueLt (.int32 i) (.uint32 u) = true)
    ∧ (∀ i s, valueLt (.int32 i) (.string s) = true)
    ∧ (∀ u s, valueLt (.uint32 u) (.string s) = true)
    ∧ (∀ fuel bytes constants ip flag (lhs rhs : Value) (rest : List Value),
        ip < bytes.length → lhs.constantType ≠ rhs.constantType →
        ((bytes.getD ip 0 = 6 →
            execLoop (fuel + 1) bytes constants (rhs :: lhs :: rest) ip flag =
              execLoop fuel bytes constants
                (.int32 (if valueLt lhs rhs then 1 else 0) :: rest) (ip + 1) flag)
          ∧ (bytes.getD ip 0 = 10 →
            execLoop (fuel + 1) bytes constants (rhs :: lhs :: rest) ip flag =
              execLoop fuel bytes constants (.int32 0 :: rest) (ip + 1) flag)
          ∧ (bytes.getD ip 0 = 11 →
            execLoop (fuel + 1) bytes constants (rhs :: lhs :: rest) ip flag =
              execLoop fuel bytes constants (.int32 1 :: rest) (ip + 1) flag)))
    ∧ (∀ v w : Value, v.constantType ≠ w.constantType →
        valueAdd v w = none ∧ valueSub v w = none
          ∧ valueMul v w = none ∧ valueDiv v w = none) := by
  refine ⟨fun i u => rfl, fun i s => rfl, fun u s => rfl, ?_, ?_⟩
  · intro fuel bytes constants ip flag lhs rhs rest hip hne
    have hbeq : valueBeq lhs rhs = false := by
      cases lhs <;> cases rhs <;> simp_all [Value.constantType, valueBeq]
    refine ⟨fun hb => execLoop_lt_step fuel bytes constants rest lhs rhs ip flag hip hb,
      fun hb => ?_, fun hb => ?_⟩
    · rw [execLoop_eq_step fuel bytes constants rest lhs rhs ip flag hip hb, hbeq]
      rfl
    · rw [execLoop_ne_step fuel bytes constants rest lhs rhs ip flag hip hb, hbeq]
      rfl
  · intro v w h
    cases v <;> cases w <;>
      simp_all [Value.constantType, valueAdd, valueSub, valueMul, valueDiv]

/-- C10 witness: the comparison facts evaluated at concrete mixed-tag values,
and the `Eq` instruction executed on a concrete mixed-tag pair. -/
theorem c10_mixed_tag_witness :
    valueLt (.int32 7) (.uint32 0) = true
    ∧ execLoop 1 [10] [] [Value.uint32 0, Value.int32 7] 0 false =
        execLoop 0 [10] [] [Value.int32 0] 1 false
    ∧ valueAdd (.int32 7) (.uint32 0) = none := by
  refine ⟨c10_mixed_tag_comparisons.1 7 0, ?_, ?_⟩
  · exact (c10_mixed_tag_comparisons.2.2.2.1 0 [10] [] 0 false (.int32 7) (.uint32 0) []
      (by decide) (by decide)).2.1 (by decide)
  · exact (c10_mixed_tag_comparisons.2.2.2.2 (.int32 7) (.uint32 0) (by decide)).1

/-! ## Claim C8: division by zero -/

/-- C8: a `Div` instruction whose popped right-hand operand is zero is a fatal
fault (a panic aborting execution) for every left-hand operand, and the whole
program `push 10 push 0 /` aborts rather than leaving a result value. -/
theorem c8_div_by_zero_fatal :
    (∀ l, valueDiv l (.int32 0) = none)
    ∧ (∀ l, valueDiv l (.uint32 0) = none)
    ∧ (∀ fuel bytes constants (rest : List Value) (lhs : Value) ip flag,
        ip < bytes.length → bytes.getD ip 0 = 5 →
        execLoop (fuel + 1) bytes constants (.int32 0 :: lhs :: rest) ip flag = none)
    ∧ runSource 64 "t.nere" "10 0 /" = none := by
  refine ⟨fun l => by cases l <;> rfl, fun l => by cases l <;> simp [valueDiv],
    ?_, rfl⟩
  intro fuel bytes constants rest lhs ip flag hip hb
  rw [execLoop_div_step fuel bytes constants rest lhs (.int32 0) ip flag hip hb]
  cases lhs <;> rfl

/-- C8 witness: the fault facts evaluated at a concrete divisor and a concrete
one-instruction execution. -/
theorem c8_div_by_zero_witness :
    valueDiv (.int32 10) (.int32 0) = none
    ∧ execLoop 1 [5] [] [Value.int32 0, Value.int32 10] 0 false = none :=
  ⟨c8_div_by_zero_fatal.1 (.int32 10),
    c8_div_by_zero_fatal.2.2.1 0 [5] [] [] (.int32 10) 0 false (by decide) (by decide)⟩

/-! ## Claim C6: line comments -/

/-- C6: the lexer's `/`-branch. A single `/` does emit a `Div` token, but the
`//` branch of the source is an empty block: only the two slashes are
consumed, the rest of the line is lexed normally, so `// hi` produces an
`unknown identifier 'hi'` error token instead of consuming the line. -/
theorem c6_comment_text_still_tokenized :
    scanTokens "t" "/" =
      some [⟨.instruction .div, "/", ⟨"t", 1, 1⟩⟩, ⟨.eof, "/", ⟨"t", 1, 1⟩⟩]
    ∧ scanTokens "t" "// hi" =
      some [⟨.error, "unknown identifier 'hi'", ⟨"t", 1, 5⟩⟩, ⟨.eof, "hi", ⟨"t", 1, 5⟩⟩] := by
  exact ⟨rfl, rfl⟩

/-! ## Claim C2: Else and the jmp_to_end flag -/

/-- C2: the program `1 if { } else { } 0 if { } else { 7 }` shows that an
`Else` whose paired `If` took the falsy branch can still jump: `jmp_to_end`
is set by the first (truthy) construct and never cleared, so the second
construct's else-body is skipped and the program ends with an empty stack,
whereas the claimed semantics would execute `7` (as the isolated program
`0 if { } else { 7 }` does). -/
theorem c2_else_sticky_flag_bug :
    runSource 99 "t.nere" "1 if { } else { } 0 if { } else { 7 }" = some (.ok [])
    ∧ runSource 99 "t.nere" "1 if { } else { } 0 if { } else { 7 }"
        ≠ some (.ok [Value.int32 7])
    ∧ runSource 99 "t.nere" "0 if { } else { 7 }" = some (.ok [Value.int32 7]) := by
  exact ⟨rfl, by decide, rfl⟩

/-! ## Claim C3: If condition truthiness -/

/-- C3 (amended): the `If` instruction pops the condition, reads the 8-byte
target and advances `ip` by 8, but it continues in sequence (setting the
else-skip flag) only when the condition's implicit `i32` coercion equals
exactly 1; every other coercion value — 0, but also 2, -1, … — jumps to the
target. In the debug profile only `Int32` conditions coerce at all: a
`UInt32` condition panics inside `as_u32`'s assert and a `String` condition
hits `unreachable!()`, so neither branch is taken for them. Concretely,
`1 if { 5 }` leaves `[Int32 5]` and `0 if { 5 }` leaves `[]`. -/
theorem c3_if_truthiness_amended :
    (∀ fuel bytes constants (rest : List Value) (v : Value) (c : Int) ip flag,
      ip + 9 ≤ bytes.length → bytes.getD ip 0 = 12 → v.asI32Implicit = some c →
      execLoop (fuel + 1) bytes constants (v :: rest) ip flag =
        (if c = 1 then execLoop fuel bytes constants rest (ip + 9) true
         else if bytes.length ≤ decode64 ((bytes.drop (ip + 1)).take 8) then
           some (.error (.segFault (ip + 9) "attempting to access restricted memory"))
         else execLoop fuel bytes constants rest
           (decode64 ((bytes.drop (ip + 1)).take 8)) flag))
    ∧ runSource 64 "t.nere" "1 if { 5 }" = some (.ok [Value.int32 5])
    ∧ runSource 64 "t.nere" "0 if { 5 }" = some (.ok [])
    ∧ (∀ i, (Value.int32 i).asI32Implicit = some i)
    ∧ (∀ u, (Value.uint32 u).asI32Implicit = none)
    ∧ (∀ str, (Value.string str).asI32Implicit = none) := by
  exact ⟨fun fuel bytes constants rest v c ip flag hip hb hc =>
    execLoop_if_step fuel bytes constants rest v c ip flag hip hb hc, rfl, rfl,
    fun i => rfl, fun u => rfl, fun str => rfl⟩

/-- C3 counterexample: the program `2 if { 5 }` pops the nonzero condition 2,
and the VM jumps past the block (final stack `[]`); under the claimed
`!= 0` truthiness it would continue in sequence and finish with `[Int32 5]`. -/
theorem c3_nonzero_condition_counterexample :
    runSource 64 "t.nere" "2 if { 5 }" = some (.ok [])
    ∧ runSource 64 "t.nere" "2 if { 5 }" ≠ some (.ok [Value.int32 5]) := by
  exact ⟨rfl, by decide⟩

/-- C3 witness: the amended step semantics evaluated at a concrete `If`
instruction with condition 0 (which jumps to target 0). -/
theorem c3_if_truthiness_witness :
    execLoop 1 [12, 0, 0, 0, 0, 0, 0, 0, 0] [] [Value.int32 0] 0 false =
      execLoop 0 [12, 0, 0, 0, 0, 0, 0, 0, 0] [] [] 0 false := by
  have h := c3_if_truthiness_amended.1 0 [12, 0, 0, 0, 0, 0, 0, 0, 0] [] []
    (.int32 0) 0 0 false (by decide) (by decide) (by decide)
  simpa using h

/-! ## Claim C7: operand order of binary instructions -/

/-- C7: every binary-arithmetic and comparison instruction pops the right-hand
operand first and the left-hand operand second, computes `lhs op rhs`, and
pushes the result; when the arithmetic operation itself is a debug-profile
fault (mixed tags, `UInt32` operands via `as_u32`'s assert, division by zero,
overflow) the fault propagates instead of a push. Consequently the program
`push 10 push 3 -` (source `10 3 -`) terminates with the single stack value
`Int32 7`. -/
theorem c7_operand_order :
    (∀ fuel bytes constants (rest : List Value) (lhs rhs : Value) ip flag,
      ip < bytes.length →
      ((bytes.getD ip 0 = 2 →
          execLoop (fuel + 1) bytes constants (rhs :: lhs :: rest) ip flag =
            match valueAdd lhs rhs with
            | some v => execLoop fuel bytes constants (v :: rest) (ip + 1) flag
            | none => none)
        ∧ (bytes.getD ip 0 = 3 →
          execLoop (fuel + 1) bytes constants (rhs :: lhs :: rest) ip flag =
            match valueSub lhs rhs with
            | some v => execLoop fuel bytes constants (v :: rest) (ip + 1) flag
            | none => none)
        ∧ (bytes.getD ip 0 = 4 →
          execLoop (fuel + 1) bytes constants (rhs :: lhs :: rest) ip flag =
            match valueMul lhs rhs with
            | some v => execLoop fuel bytes constants (v :: rest) (ip + 1) flag
            | none => none)
        ∧ (bytes.getD ip 0 = 5 →
          execLoop (fuel + 1) bytes constants (rhs :: lhs :: rest) ip flag =
            match valueDiv lhs rhs with
            | some v => execLoop fuel bytes constants (v :: rest) (ip + 1) flag
            | none => none)
        ∧ (bytes.getD ip 0 = 6 →
          execLoop (fuel + 1) bytes constants (rhs :: lhs :: rest) ip flag =
            execLoop fuel bytes constants
              (.int32 (if valueLt lhs rhs then 1 else 0) :: rest) (ip + 1) flag)
        ∧ (bytes.getD ip 0 = 7 →
          execLoop (fuel + 1) bytes constants (rhs :: lhs :: rest) ip flag =
            execLoop fuel bytes constants
              (.int32 (if valueLte lhs rhs then 1 else 0) :: rest) (ip + 1) flag)
        ∧ (bytes.getD ip 0 = 8 →
          execLoop (fuel + 1) bytes constants (rhs :: lhs :: rest) ip flag =
            execLoop fuel bytes constants
              (.int32 (if valueGt lhs rhs then 1 else 0) :: rest) (ip + 1) flag)
        ∧ (bytes.getD ip 0 = 9 →
          execLoop (fuel + 1) bytes constants (rhs :: lhs :: rest) ip flag =
            execLoop fuel bytes constants
              (.int32 (if valueGte lhs rhs then 1 else 0) :: rest) (ip + 1) flag)
        ∧ (bytes.getD ip 0 = 10 →
          execLoop (fuel + 1) bytes constants (rhs :: lhs :: rest) ip flag =
            execLoop fuel bytes constants
              (.int32 (if valueBeq lhs rhs then 1 else 0) :: rest) (ip + 1) flag)
        ∧ (bytes.getD ip 0 = 11 →
          execLoop (fuel + 1) bytes constants (rhs :: lhs :: rest) ip flag =
            execLoop fuel bytes constants
              (.int32 (if !valueBeq lhs rhs then 1 else 0) :: rest) (ip + 1) flag)))
    ∧ valueSub (.int32 10) (.int32 3) = some (.int32 7)
    ∧ runSource 64 "t.nere" "10 3 -" = some (.ok [Value.int32 7]) := by
  refine ⟨?_, rfl, rfl⟩
  intro fuel bytes constants rest lhs rhs ip flag hip
  exact ⟨fun hb => execLoop_add_step fuel bytes constants rest lhs rhs ip flag hip hb,
    fun hb => execLoop_sub_step fuel bytes constants rest lhs rhs ip flag hip hb,
    fun hb => execLoop_mul_step fuel bytes constants rest lhs rhs ip flag hip hb,
    fun hb => execLoop_div_step fuel bytes constants rest lhs rhs ip flag hip hb,
    fun hb => execLoop_lt_step fuel bytes constants rest lhs rhs ip flag hip hb,
    fun hb => execLoop_lte_step fuel bytes constants rest lhs rhs ip flag hip hb,
    fun hb => execLoop_gt_step fuel bytes constants rest lhs rhs ip flag hip hb,
    fun hb => execLoop_gte_step fuel bytes constants rest lhs rhs ip flag hip hb,
    fun hb => execLoop_eq_step fuel bytes constants rest lhs rhs ip flag hip hb,
    fun hb => execLoop_ne_step fuel bytes constants rest lhs rhs ip flag hip hb⟩

/-- C7 witness: the `Sub` pop-order fact evaluated at a concrete instruction:
with 10 pushed first and 3 on top, the result is `10 - 3 = 7`. -/
theorem c7_operand_order_witness :
    execLoop 1 [3] [] [Value.int32 3, Value.int32 10] 0 false =
      execLoop 0 [3] [] [Value.int32 7] 1 false := by
  have h := (c7_operand_order.1 0 [3] [] [] (.int32 10) (.int32 3) 0 false
    (by decide)).2.1 (by decide)
  simpa using h

/-! ## Claim C5: the binary loader -/

/-- The only `Err` value the constant-pool loader can return is
`InvalidUTF8String`; truncated payloads are panics (`none`), not errors. -/
theorem loadConstants_error_utf8 (fuel : Nat) :
    ∀ cb acc e, loadConstants fuel cb acc = some (.error e) → e = .invalidUTF8String := by
  induction fuel with
  | zero => intro cb acc e h; exact Option.noConfusion h
  | succ fuel ih =>
    intro cb acc e h
    match cb with
    | [] => simp [loadConstants] at h
    | 0 :: rest =>
      simp only [loadConstants] at h
      split at h
      · exact Option.noConfusion h
      · exact ih _ _ _ h
    | 1 :: rest =>
      simp only [loadConstants] at h
      split at h
      · exact Option.noConfusion h
      · exact ih _ _ _ h
    | 2 :: rest =>
      simp only [loadConstants] at h
      split at h
      · exact Option.noConfusion h
      · split at h
        · exact Option.noConfusion h
        · split at h
          · exact ih _ _ _ h
          · exact ((Except.error.inj (Option.some.inj h)).symm : e = _)
    | (n + 3) :: rest => exact Option.noConfusion h

/-- C5 (amended): the loader returns `Err(CorruptedBinary)` exactly for the
empty binary (and thus executes nothing on a zero-byte file), and it returns
`Err(InvalidUTF8String)` when a well-framed string constant holds invalid
UTF-8 (the only error the constant loader produces); but a nonempty binary
shorter than 8 bytes, or one whose declared `halt_index` reaches past the
remaining byte stream, makes the loader panic (an aborting `drain`
out-of-range) instead of returning a descriptive error value. -/
theorem c5_loader_amended :
    loadBinary [] = some (.error .corruptedBinary)
    ∧ (∀ bs : List Nat, bs ≠ [] → loadBinary bs ≠ some (.error .corruptedBinary))
    ∧ (∀ bs : List Nat, bs ≠ [] → bs.length < 8 → loadBinary bs = none)
    ∧ (∀ bs : List Nat, 8 ≤ bs.length → bs.length ≤ 8 + decode64 (bs.take 8) →
        loadBinary bs = none)
    ∧ (∀ fuel cb acc e, loadConstants fuel cb acc = some (.error e) →
        e = .invalidUTF8String)
    ∧ loadBinary (encode64 0 ++ [17, 2] ++ encode64 1 ++ [255]) =
        some (.error .invalidUTF8String) := by
  refine ⟨rfl, ?_, ?_, ?_, fun fuel => loadConstants_error_utf8 fuel, rfl⟩
  · intro bs hne h
    simp only [loadBinary] at h
    rw [if_neg hne] at h
    split at h
    · exact Option.noConfusion h
    · split at h
      · exact Option.noConfusion h
      · split at h
        · exact Option.noConfusion h
        · rename_i e' he'
          have := loadConstants_error_utf8 _ _ _ _ he'
          subst this
          exact Error.noConfusion (Except.error.inj (Option.some.inj h))
        · exact Except.noConfusion (Option.some.inj h)
  · intro bs hne h8
    simp only [loadBinary]
    rw [if_neg hne, if_pos h8]
  · intro bs h8 hle
    have hne : bs ≠ [] := by intro h; subst h; simp at h8
    simp only [loadBinary]
    rw [if_neg hne, if_neg (by omega)]
    rw [if_pos (by simp only [List.length_drop]; omega)]

/-- C5 counterexample: the 8-byte all-zero binary declares `halt_index = 0`
against an empty remaining stream, and the loader panics
(`drain(halt_index + 1..)` out of range) instead of returning any
descriptive error value. -/
theorem c5_loader_counterexample :
    loadBinary (List.replicate 8 0) = none
    ∧ ∀ e, loadBinary (List.replicate 8 0) ≠ some (.error e) := by
  refine ⟨rfl, ?_⟩
  intro e h
  rw [show loadBinary (List.replicate 8 0) = none from rfl] at h
  exact Option.noConfusion h

/-- C5 witness: the halt-index panic clause evaluated at the concrete binary
`[9,0,0,0,0,0,0,0,1]` (declared halt_index 9, one remaining byte). -/
theorem c5_loader_witness : loadBinary [9, 0, 0, 0, 0, 0, 0, 0, 1] = none :=
  c5_loader_amended.2.2.2.1 [9, 0, 0, 0, 0, 0, 0, 0, 1] (by decide) (by decide)

/-- Any token emitted by the digit branch carries the cursor location of the
state the branch ends in. -/
theorem scanNumber_location (fuel : Nat) (lx : Lexer) (t : Token) (lx' : Lexer)
    (h : scanNumber fuel lx = some (some t, lx')) : t.location = lx'.cursorLocation := by
  simp only [scanNumber] at h
  split at h
  · exact Option.noConfusion h
  · simp only [Option.some.injEq, Prod.mk.injEq] at h
    obtain ⟨rfl, rfl⟩ := h
    rfl

/-- Any token emitted by the identifier branch carries the cursor location of
the state the branch ends in. -/
theorem scanIdent_location (fuel : Nat) (lx : Lexer) (t : Token) (lx' : Lexer)
    (h : scanIdent fuel lx = some (some t, lx')) : t.location = lx'.cursorLocation := by
  simp only [scanIdent] at h
  split at h
  all_goals
    simp only [Option.some.injEq, Prod.mk.injEq] at h
  all_goals
    obtain ⟨rfl, rfl⟩ := h
    rfl

/-- Any token emitted by the string-literal branch carries the cursor location
of the state the branch ends in. -/
theorem scanStringLit_location (fuel : Nat) (lx : Lexer) (t : Token) (lx' : Lexer)
    (h : scanStringLit fuel lx = some (some t, lx')) : t.location = lx'.cursorLocation := by
  simp only [scanStringLit] at h
  split at h
  all_goals
    simp only [Option.some.injEq, Prod.mk.injEq] at h
  all_goals
    obtain ⟨rfl, rfl⟩ := h
    rfl

/-- Any token emitted by the operator/whitespace branch carries the cursor
location of the state the branch ends in. -/
theorem scanSymbol_location (fuel : Nat) (c : Char) (lx : Lexer) (t : Token) (lx' : Lexer)
    (h : scanSymbol fuel c lx = some (some t, lx')) : t.location = lx'.cursorLocation := by
  unfold scanSymbol at h
  by_cases h1 : c = '{'
  · rw [if_pos h1] at h
    simp only [Option.some.injEq, Prod.mk.injEq] at h
    obtain ⟨rfl, rfl⟩ := h
    rfl
  rw [if_neg h1] at h
  by_cases h2 : c = '}'
  · rw [if_pos h2] at h
    simp only [Option.some.injEq, Prod.mk.injEq] at h
    obtain ⟨rfl, rfl⟩ := h
    rfl
  rw [if_neg h2] at h
  by_cases h3 : c = '+'
  · rw [if_pos h3] at h
    simp only [Option.some.injEq, Prod.mk.injEq] at h
    obtain ⟨rfl, rfl⟩ := h
    rfl
  rw [if_neg h3] at h
  by_cases h4 : c = '-'
  · rw [if_pos h4] at h
    simp only [Option.some.injEq, Prod.mk.injEq] at h
    obtain ⟨rfl, rfl⟩ := h
    rfl
  rw [if_neg h4] at h
  by_cases h5 : c = '*'
  · rw [if_pos h5] at h
    simp only [Option.some.injEq, Prod.mk.injEq] at h
    obtain ⟨rfl, rfl⟩ := h
    rfl
  rw [if_neg h5] at h
  by_cases h6 : c = '/'
  · rw [if_pos h6] at h
    by_cases hm6 : (lx.matchChar '/').1 = true
    · rw [if_pos hm6] at h
      simp only [Option.some.injEq, Prod.mk.injEq] at h
      exact Option.noConfusion h.1
    · rw [if_neg hm6] at h
      simp only [Option.some.injEq, Prod.mk.injEq] at h
      obtain ⟨rfl, rfl⟩ := h
      rfl
  rw [if_neg h6] at h
  by_cases h7 : c = '<'
  · rw [if_pos h7] at h
    by_cases hm7 : (lx.matchChar '=').1 = true
    · rw [if_pos hm7] at h
      simp only [Option.some.injEq, Prod.mk.injEq] at h
      obtain ⟨rfl, rfl⟩ := h
      rfl
    · rw [if_neg hm7] at h
      simp only [Option.some.injEq, Prod.mk.injEq] at h
      obtain ⟨rfl, rfl⟩ := h
      rfl
  rw [if_neg h7] at h
  by_cases h8 : c = '>'
  · rw [if_pos h8] at h
    by_cases hm8 : (lx.matchChar '=').1 = true
    · rw [if_pos hm8] at h
      simp only [Option.some.injEq, Prod.mk.injEq] at h
      obtain ⟨rfl, rfl⟩ := h
      rfl
    · rw [if_neg hm8] at h
      simp only [Option.some.injEq, Prod.mk.injEq] at h
      obtain ⟨rfl, rfl⟩ := h
      rfl
  rw [if_neg h8] at h
  by_cases h9 : c = '='
  · rw [if_pos h9] at h
    simp only [Option.some.injEq, Prod.mk.injEq] at h
    obtain ⟨rfl, rfl⟩ := h
    rfl
  rw [if_neg h9] at h
  by_cases h10 : c = '!'
  · rw [if_pos h10] at h
    simp only [Option.some.injEq, Prod.mk.injEq] at h
    obtain ⟨rfl, rfl⟩ := h
    rfl
  rw [if_neg h10] at h
  by_cases h11 : c = '.'
  · rw [if_pos h11] at h
    simp only [Option.some.injEq, Prod.mk.injEq] at h
    obtain ⟨rfl, rfl⟩ := h
    rfl
  rw [if_neg h11] at h
  by_cases h12 : c = '\"'
  · rw [if_pos h12] at h
    exact scanStringLit_location _ _ _ _ h
  rw [if_neg h12] at h
  by_cases h13 : c = '\x0d' ∨ c = '\t' ∨ c = ' '
  · rw [if_pos h13] at h
    simp only [Option.some.injEq, Prod.mk.injEq] at h
    exact Option.noConfusion h.1
  rw [if_neg h13] at h
  by_cases h14 : c = '\n'
  · rw [if_pos h14] at h
    simp only [Option.some.injEq, Prod.mk.injEq] at h
    exact Option.noConfusion h.1
  rw [if_neg h14] at h
  simp only [Option.some.injEq, Prod.mk.injEq] at h
  obtain ⟨rfl, rfl⟩ := h
  rfl

/-! ## Claim C9: token locations -/

/-- C9: every token the lexer emits — from any loop iteration (instruction,
literal, block delimiter, error) and the final end-of-input token — carries
`cursor_location()` of the state the iteration ends in, i.e. the cursor
position immediately after the lexeme was consumed; concretely, lexing `10`
records column 2 (after the lexeme), not column 0 (its start). -/
theorem c9_token_location_after_lexeme :
    (∀ fuel (lx : Lexer) t lx', scanIter fuel lx = some (some t, lx') →
        t.location = lx'.cursorLocation)
    ∧ (∀ fuel (lx : Lexer) acc, lx.isAtEnd = true →
        scanLoop (fuel + 1) lx acc = some (acc ++ [lx.makeToken .eof lx.currentLexeme]))
    ∧ scanTokens "t" "10" =
        some [⟨.value (.int32 10), "10", ⟨"t", 1, 2⟩⟩, ⟨.eof, "10", ⟨"t", 1, 2⟩⟩] := by
  refine ⟨?_, ?_, rfl⟩
  · intro fuel lx t lx' h
    simp only [scanIter] at h
    split at h
    · exact scanNumber_location _ _ _ _ h
    · split at h
      · exact scanIdent_location _ _ _ _ h
      · exact scanSymbol_location _ _ _ _ _ h
  · intro fuel lx acc h
    simp [scanLoop, h]

/-- C9 witness: the location fact applied to the concrete iteration that lexes
the literal `10`: the token's recorded location is the cursor location of the
post-iteration state (line 1, column 2). -/
theorem c9_token_location_witness :
    (⟨.value (.int32 10), "10", ⟨"t.nere", 1, 2⟩⟩ : Token).location =
      (⟨"t.nere", "10".data, 2, 0, 0, 1⟩ : Lexer).cursorLocation :=
  c9_token_location_after_lexeme.1 3 ⟨"t.nere", "10".data, 0, 0, 0, 1⟩ _ _ rfl

/-! ## Claim C1: the backpatch pass

Infrastructure: `preprocess_program` treats the straight-line token kinds
uniformly (`ip += 1` for plain instructions, `ip += 9` for literals), so runs
of such tokens can be stepped over wholesale. -/

/-- Tokens handled by the straight-line arms of `preprocess_program`: the
thirteen plain instructions and literal values. -/
def tokSimple (t : Token) : Bool :=
  match t.typ3 with
  | .instruction op =>
    match op with
    | .push | .add | .sub | .mul | .div | .lt | .lte | .gt | .gte
    | .eq | .ne | .dump | .halt => true
    | _ => false
  | .value _ => true
  | _ => false

/-- The byte size `preprocess_program` (and emission) assigns to a
straight-line token: 1 for a plain instruction, 9 for a literal. -/
def tokIpSize (t : Token) : Nat :=
  match t.typ3 with
  | .instruction _ => 1
  | .value _ => 9
  | _ => 0

/-- Total emitted byte size of a straight-line token run. -/
def ppSize : List Token → Nat
  | [] => 0
  | t :: rest => tokIpSize t + ppSize rest

/-- The backpatch rewrite applied to an `If` token: carry jump target `ip`. -/
def patchIf (t : Token) (ip : Nat) : Token :=
  { t with typ3 := .instruction (.ifOp (ip : Int)) }

/-- The backpatch rewrite applied to an `Else` token: carry jump target `ip`. -/
def patchElse (t : Token) (ip : Nat) : Token :=
  { t with typ3 := .instruction (.elseOp (ip : Int)) }

/-- Element lookup past an appended block, with the index written as
`pre.length + k`. -/
theorem getElem?_len_add {α : Type} (pre l : List α) (k : Nat) :
    (pre ++ l)[pre.length + k]? = l[k]? := by
  rw [List.getElem?_append_right (by omega)]
  congr 1
  omega

/-- `List.set` past an appended block, with the index written as
`pre.length + k`. -/
theorem set_len_add {α : Type} (pre : List α) (k : Nat) (a : α) :
    ∀ l : List α, (pre ++ l).set (pre.length + k) a = pre ++ l.set k a := by
  induction pre with
  | nil => intro l; simp
  | cons p pre ih =>
    intro l
    simp only [List.cons_append, List.length_cons]
    rw [show pre.length + 1 + k = (pre.length + k) + 1 from by omega]
    simp only [List.set_cons_succ]
    rw [ih l]

/-- A straight-line token advances `count` by 1 and `ip` by its byte size. -/
theorem ppLoop_step_simple (fuel : Nat) (tokens : List Token) (stack : List Nat)
    (count ip : Nat) (he : Bool) (t : Token)
    (ht : tokens[count]? = some t) (hs : tokSimple t = true) :
    ppLoop (fuel + 1) tokens stack count ip he =
      ppLoop fuel tokens stack (count + 1) (ip + tokIpSize t) he := by
  obtain ⟨typ3, lexeme, loc⟩ := t
  cases typ3 with
  | instruction op =>
    cases op <;>
      first
        | (simp only [ppLoop, ht]; rfl)
        | exact Bool.noConfusion hs
  | value v => simp only [ppLoop, ht]; rfl
  | lbrace => exact Bool.noConfusion hs
  | rbrace => exact Bool.noConfusion hs
  | error => exact Bool.noConfusion hs
  | eof => exact Bool.noConfusion hs

/-- An `If` token is pushed on the pending stack; `ip` grows by 9. -/
theorem ppLoop_step_if (fuel : Nat) (tokens : List Token) (stack : List Nat)
    (count ip : Nat) (he : Bool) (t : Token) (i0 : Int)
    (ht : tokens[count]? = some t) (hty : t.typ3 = .instruction (.ifOp i0)) :
    ppLoop (fuel + 1) tokens stack count ip he =
      ppLoop fuel tokens (count :: stack) (count + 1) (ip + 9) he := by
  simp only [ppLoop, ht, hty]

/-- An `LBrace` token contributes nothing: `count + 1`, `ip` unchanged. -/
theorem ppLoop_step_lbrace (fuel : Nat) (tokens : List Token) (stack : List Nat)
    (count ip : Nat) (he : Bool) (t : Token)
    (ht : tokens[count]? = some t) (hty : t.typ3 = .lbrace) :
    ppLoop (fuel + 1) tokens stack count ip he =
      ppLoop fuel tokens stack (count + 1) ip he := by
  simp only [ppLoop, ht, hty]

/-- The `Eof` token terminates the pass, returning the rewritten stream. -/
theorem ppLoop_step_eof (fuel : Nat) (tokens : List Token) (stack : List Nat)
    (count ip : Nat) (he : Bool) (t : Token)
    (ht : tokens[count]? = some t) (hty : t.typ3 = .eof) :
    ppLoop (fuel + 1) tokens stack count ip he = some (.ok tokens) := by
  simp only [ppLoop, ht, hty]

/-- An `RBrace` whose following token is an `Else` leaves the pending `If`
unresolved (it will be patched at the `Else`). -/
theorem ppLoop_step_rbrace_skip (fuel : Nat) (tokens : List Token)
    (topIp : Nat) (stack : List Nat) (count ip : Nat) (t nt : Token) (e0 : Int)
    (ht : tokens[count]? = some t) (hty : t.typ3 = .rbrace)
    (hnt : tokens[count + 1]? = some nt)
    (hnty : nt.typ3 = .instruction (.elseOp e0)) :
    ppLoop (fuel + 1) tokens (topIp :: stack) count ip false =
      ppLoop fuel tokens (topIp :: stack) (count + 1) ip false := by
  simp only [ppLoop, ht, hty, hnt, hnty]
  rfl

/-- An `RBrace` not followed by an `Else` (here: followed by `Eof`) pops the
pending `If` token index and rewrites that token to `If(ip)`. -/
theorem ppLoop_step_rbrace_patch_if (fuel : Nat) (tokens : List Token)
    (topIp : Nat) (stack : List Nat) (count ip : Nat) (t nt t2 : Token) (op2 : OpCode)
    (ht : tokens[count]? = some t) (hty : t.typ3 = .rbrace)
    (hnt : tokens[count + 1]? = some nt) (hnty : nt.typ3 = .eof)
    (ht2 : tokens[topIp]? = some t2) (ht2ty : t2.typ3 = .instruction op2) :
    ppLoop (fuel + 1) tokens (topIp :: stack) count ip false =
      ppLoop fuel (tokens.set topIp (patchIf t2 ip)) stack (count + 1) ip false := by
  simp only [ppLoop, patchIf, ht, hty, hnt, hnty, ht2, ht2ty]
  rfl

/-- An `RBrace` with `hit_else_block` set pops the pending `Else` token index
and rewrites that token to `Else(ip)`, clearing the flag. -/
theorem ppLoop_step_rbrace_patch_else (fuel : Nat) (tokens : List Token)
    (topIp : Nat) (stack : List Nat) (count ip : Nat) (t t2 : Token) (op2 : OpCode)
    (ht : tokens[count]? = some t) (hty : t.typ3 = .rbrace)
    (ht2 : tokens[topIp]? = some t2) (ht2ty : t2.typ3 = .instruction op2) :
    ppLoop (fuel + 1) tokens (topIp :: stack) count ip true =
      ppLoop fuel (tokens.set topIp (patchElse t2 ip)) stack (count + 1) ip false := by
  simp only [ppLoop, patchElse, ht, hty, ht2, ht2ty]
  rfl

/-- An `Else` token pops the pending `If` token index, rewrites that token to
`If(ip)` — so the `If` jump target is the byte offset of the `Else`
instruction itself — and pushes its own index; `ip` grows by 9 and
`hit_else_block` is set. -/
theorem ppLoop_step_else (fuel : Nat) (tokens : List Token)
    (ifIp : Nat) (stack : List Nat) (count ip : Nat) (he : Bool)
    (t t2 : Token) (e0 : Int) (op2 : OpCode)
    (ht : tokens[count]? = some t) (hty : t.typ3 = .instruction (.elseOp e0))
    (ht2 : tokens[ifIp]? = some t2) (ht2ty : t2.typ3 = .instruction op2) :
    ppLoop (fuel + 1) tokens (ifIp :: stack) count ip he =
      ppLoop fuel (tokens.set ifIp (patchIf t2 ip)) (count :: stack) (count + 1) (ip + 9)
        true := by
  simp only [ppLoop, patchIf, ht, hty, ht2, ht2ty]

/-- Stepping over a run of straight-line tokens starting at `count =
pre.length`: `count` advances past the run and `ip` grows by its byte size. -/
theorem ppLoop_run (A : List Token) :
    ∀ (pre post : List Token) (stack : List Nat) (ip : Nat) (he : Bool) (fuel : Nat),
      (∀ t ∈ A, tokSimple t = true) →
      ppLoop (A.length + fuel) (pre ++ A ++ post) stack pre.length ip he
        = ppLoop fuel (pre ++ A ++ post) stack (pre.length + A.length) (ip + ppSize A) he := by
  induction A with
  | nil => intro pre post stack ip he fuel _; simp [ppSize]
  | cons a A ih =>
    intro pre post stack ip he fuel hsimple
    have hidx : (pre ++ (a :: A) ++ post)[pre.length]? = some a := by
      rw [List.append_assoc, List.getElem?_append_right (le_refl _)]
      simp
    have hf : (a :: A).length + fuel = A.length + fuel + 1 := by
      simp only [List.length_cons]; omega
    rw [hf, ppLoop_step_simple (A.length + fuel) _ stack pre.length ip he a hidx
      (hsimple a (by simp))]
    have heq : pre ++ (a :: A) ++ post = (pre ++ [a]) ++ A ++ post := by simp
    rw [heq]
    have hc : pre.length + 1 = (pre ++ [a]).length := by simp
    rw [hc]
    rw [ih (pre ++ [a]) post stack (ip + tokIpSize a) he fuel
      (fun t ht => hsimple t (by simp [ht]))]
    congr 1
    · simp only [List.length_append, List.length_cons, List.length_nil]; omega
    · simp only [ppSize]; omega

/-- Backpatching a program `P; if { A }` (no else), for straight-line `P` and
`A`: the `If` token is rewritten to carry target `ppSize P + 9 + ppSize A`,
the byte offset immediately after the closing brace. -/
theorem preprocess_noelse
    (P A : List Token) (tIf tLb tRb tEof : Token) (i0 : Int)
    (hP : ∀ t ∈ P, tokSimple t = true) (hA : ∀ t ∈ A, tokSimple t = true)
    (hIf : tIf.typ3 = .instruction (.ifOp i0)) (hLb : tLb.typ3 = .lbrace)
    (hRb : tRb.typ3 = .rbrace) (hEof : tEof.typ3 = .eof) :
    preprocessProgram (P ++ tIf :: tLb :: (A ++ [tRb, tEof]))
      = some (.ok (P ++ patchIf tIf (ppSize P + 9 + ppSize A)
          :: tLb :: (A ++ [tRb, tEof]))) := by
  unfold preprocessProgram
  rw [show (P ++ tIf :: tLb :: (A ++ [tRb, tEof])).length + 1 = P.length + (A.length + 5)
    from by simp only [List.length_append, List.length_cons, List.length_nil]; omega]
  have hrunP := ppLoop_run P [] (tIf :: tLb :: (A ++ [tRb, tEof])) [] 0 false (A.length + 5) hP
  simp only [List.nil_append, List.length_nil, Nat.zero_add] at hrunP
  rw [hrunP]
  have hidx0 : (P ++ tIf :: tLb :: (A ++ [tRb, tEof]))[P.length]? = some tIf := by
    simpa using getElem?_len_add P (tIf :: tLb :: (A ++ [tRb, tEof])) 0
  rw [show A.length + 5 = (A.length + 4) + 1 from by omega,
    ppLoop_step_if (A.length + 4) _ [] P.length (ppSize P) false tIf i0 hidx0 hIf]
  have hidx1 : (P ++ tIf :: tLb :: (A ++ [tRb, tEof]))[P.length + 1]? = some tLb := by
    simpa using getElem?_len_add P (tIf :: tLb :: (A ++ [tRb, tEof])) 1
  rw [show A.length + 4 = (A.length + 3) + 1 from by omega,
    ppLoop_step_lbrace (A.length + 3) _ [P.length] (P.length + 1) (ppSize P + 9) false tLb
      hidx1 hLb]
  rw [show P ++ tIf :: tLb :: (A ++ [tRb, tEof]) = (P ++ [tIf, tLb]) ++ A ++ [tRb, tEof]
    from by simp]
  rw [show P.length + 1 + 1 = (P ++ [tIf, tLb]).length
    from by simp only [List.length_append, List.length_cons, List.length_nil]; try omega]
  rw [ppLoop_run A (P ++ [tIf, tLb]) [tRb, tEof] [P.length] (ppSize P + 9) false 3 hA]
  have hidxRb : ((P ++ [tIf, tLb]) ++ A ++ [tRb, tEof])[(P ++ [tIf, tLb]).length + A.length]?
      = some tRb := by
    rw [show (P ++ [tIf, tLb]).length + A.length = ((P ++ [tIf, tLb]) ++ A).length + 0
      from by simp only [List.length_append]; try omega]
    simpa using getElem?_len_add ((P ++ [tIf, tLb]) ++ A) [tRb, tEof] 0
  have hidxEof : ((P ++ [tIf, tLb]) ++ A
      ++ [tRb, tEof])[(P ++ [tIf, tLb]).length + A.length + 1]? = some tEof := by
    rw [show (P ++ [tIf, tLb]).length + A.length + 1 = ((P ++ [tIf, tLb]) ++ A).length + 1
      from by simp only [List.length_append]; try omega]
    simpa using getElem?_len_add ((P ++ [tIf, tLb]) ++ A) [tRb, tEof] 1
  have hidxIf2 : ((P ++ [tIf, tLb]) ++ A ++ [tRb, tEof])[P.length]? = some tIf := by
    rw [List.getElem?_append_left (by
      simp only [List.length_append, List.length_cons, List.length_nil]; omega)]
    rw [List.getElem?_append_left (by
      simp only [List.length_append, List.length_cons, List.length_nil]; omega)]
    simpa using getElem?_len_add P [tIf, tLb] 0
  rw [show (3 : Nat) = 2 + 1 from rfl,
    ppLoop_step_rbrace_patch_if 2 _ P.length [] ((P ++ [tIf, tLb]).length + A.length)
      (ppSize P + 9 + ppSize A) tRb tEof tIf (.ifOp i0) hidxRb hRb hidxEof hEof hidxIf2 hIf]
  rw [show (((P ++ [tIf, tLb]) ++ A) ++ [tRb, tEof]).set P.length
        (patchIf tIf (ppSize P + 9 + ppSize A))
      = ((P ++ [patchIf tIf (ppSize P + 9 + ppSize A), tLb]) ++ A) ++ [tRb, tEof] from by
    rw [List.set_append_left _ _ (by
      simp only [List.length_append, List.length_cons, List.length_nil]; omega)]
    rw [List.set_append_left _ _ (by
      simp only [List.length_append, List.length_cons, List.length_nil]; omega)]
    simp]
  have hidxEof2 : (((P ++ [patchIf tIf (ppSize P + 9 + ppSize A), tLb]) ++ A)
      ++ [tRb, tEof])[(P ++ [tIf, tLb]).length + A.length + 1]? = some tEof := by
    rw [show (P ++ [tIf, tLb]).length + A.length + 1
        = ((P ++ [patchIf tIf (ppSize P + 9 + ppSize A), tLb]) ++ A).length + 1
      from by simp only [List.length_append, List.length_cons, List.length_nil]; try omega]
    simpa using getElem?_len_add
      ((P ++ [patchIf tIf (ppSize P + 9 + ppSize A), tLb]) ++ A) [tRb, tEof] 1
  rw [show (2 : Nat) = 1 + 1 from rfl,
    ppLoop_step_eof 1 _ [] ((P ++ [tIf, tLb]).length + A.length + 1)
      (ppSize P + 9 + ppSize A) false tEof hidxEof2 hEof]
  simp

/-- Backpatching a program `P; if { A } else { B }`, for straight-line `P`,
`A`, `B`: the `If` token is rewritten to carry target
`ppSize P + 9 + ppSize A` — the byte offset of the `Else` instruction itself,
9 bytes before the start of the else-body `B` — and the `Else` token to carry
target `ppSize P + 9 + ppSize A + 9 + ppSize B`, the byte offset immediately
after `B`'s closing brace. -/
theorem preprocess_ifelse
    (P A B : List Token) (tIf tLb1 tRb1 tElse tLb2 tRb2 tEof : Token) (i0 e0 : Int)
    (hP : ∀ t ∈ P, tokSimple t = true) (hA : ∀ t ∈ A, tokSimple t = true)
    (hB : ∀ t ∈ B, tokSimple t = true)
    (hIf : tIf.typ3 = .instruction (.ifOp i0)) (hLb1 : tLb1.typ3 = .lbrace)
    (hRb1 : tRb1.typ3 = .rbrace) (hElse : tElse.typ3 = .instruction (.elseOp e0))
    (hLb2 : tLb2.typ3 = .lbrace) (hRb2 : tRb2.typ3 = .rbrace)
    (hEof : tEof.typ3 = .eof) :
    preprocessProgram
        (P ++ tIf :: tLb1 :: (A ++ tRb1 :: tElse :: tLb2 :: (B ++ [tRb2, tEof])))
      = some (.ok (P ++ patchIf tIf (ppSize P + 9 + ppSize A) :: tLb1 ::
          (A ++ tRb1 :: patchElse tElse (ppSize P + 9 + ppSize A + 9 + ppSize B) :: tLb2 ::
            (B ++ [tRb2, tEof])))) := by
  unfold preprocessProgram
  rw [show (P ++ tIf :: tLb1 :: (A ++ tRb1 :: tElse :: tLb2 :: (B ++ [tRb2, tEof]))).length + 1
      = P.length + (A.length + (B.length + 8))
    from by simp only [List.length_append, List.length_cons, List.length_nil]; omega]
  have hrunP := ppLoop_run P []
    (tIf :: tLb1 :: (A ++ tRb1 :: tElse :: tLb2 :: (B ++ [tRb2, tEof]))) [] 0 false
    (A.length + (B.length + 8)) hP
  simp only [List.nil_append, List.length_nil, Nat.zero_add] at hrunP
  rw [hrunP]
  have hidx0 : (P ++ tIf :: tLb1 ::
      (A ++ tRb1 :: tElse :: tLb2 :: (B ++ [tRb2, tEof])))[P.length]? = some tIf := by
    simpa using getElem?_len_add P
      (tIf :: tLb1 :: (A ++ tRb1 :: tElse :: tLb2 :: (B ++ [tRb2, tEof]))) 0
  rw [show A.length + (B.length + 8) = (A.length + (B.length + 7)) + 1 from by omega,
    ppLoop_step_if (A.length + (B.length + 7)) _ [] P.length (ppSize P) false tIf i0 hidx0 hIf]
  have hidx1 : (P ++ tIf :: tLb1 ::
      (A ++ tRb1 :: tElse :: tLb2 :: (B ++ [tRb2, tEof])))[P.length + 1]? = some tLb1 := by
    simpa using getElem?_len_add P
      (tIf :: tLb1 :: (A ++ tRb1 :: tElse :: tLb2 :: (B ++ [tRb2, tEof]))) 1
  rw [show A.length + (B.length + 7) = (A.length + (B.length + 6)) + 1 from by omega,
    ppLoop_step_lbrace (A.length + (B.length + 6)) _ [P.length] (P.length + 1) (ppSize P + 9)
      false tLb1 hidx1 hLb1]
  rw [show P ++ tIf :: tLb1 :: (A ++ tRb1 :: tElse :: tLb2 :: (B ++ [tRb2, tEof]))
      = (P ++ [tIf, tLb1]) ++ A ++ (tRb1 :: tElse :: tLb2 :: (B ++ [tRb2, tEof]))
    from by simp]
  rw [show P.length + 1 + 1 = (P ++ [tIf, tLb1]).length
    from by simp only [List.length_append, List.length_cons, List.length_nil]; try omega]
  rw [ppLoop_run A (P ++ [tIf, tLb1]) (tRb1 :: tElse :: tLb2 :: (B ++ [tRb2, tEof]))
    [P.length] (ppSize P + 9) false (B.length + 6) hA]
  have hidxRb1 : ((P ++ [tIf, tLb1]) ++ A ++ (tRb1 :: tElse :: tLb2 ::
      (B ++ [tRb2, tEof])))[(P ++ [tIf, tLb1]).length + A.length]? = some tRb1 := by
    rw [show (P ++ [tIf, tLb1]).length + A.length = ((P ++ [tIf, tLb1]) ++ A).length + 0
      from by simp only [List.length_append]; try omega]
    simpa using getElem?_len_add ((P ++ [tIf, tLb1]) ++ A)
      (tRb1 :: tElse :: tLb2 :: (B ++ [tRb2, tEof])) 0
  have hidxElse : ((P ++ [tIf, tLb1]) ++ A ++ (tRb1 :: tElse :: tLb2 ::
      (B ++ [tRb2, tEof])))[(P ++ [tIf, tLb1]).length + A.length + 1]? = some tElse := by
    rw [show (P ++ [tIf, tLb1]).length + A.length + 1 = ((P ++ [tIf, tLb1]) ++ A).length + 1
      from by simp only [List.length_append]; try omega]
    simpa using getElem?_len_add ((P ++ [tIf, tLb1]) ++ A)
      (tRb1 :: tElse :: tLb2 :: (B ++ [tRb2, tEof])) 1
  rw [show B.length + 6 = (B.length + 5) + 1 from by omega,
    ppLoop_step_rbrace_skip (B.length + 5) _ P.length []
      ((P ++ [tIf, tLb1]).length + A.length) (ppSize P + 9 + ppSize A) tRb1 tElse e0
      hidxRb1 hRb1 hidxElse hElse]
  have hidxIf2 : ((P ++ [tIf, tLb1]) ++ A ++ (tRb1 :: tElse :: tLb2 ::
      (B ++ [tRb2, tEof])))[P.length]? = some tIf := by
    rw [List.getElem?_append_left (by
      simp only [List.length_append, List.length_cons, List.length_nil]; omega)]
    rw [List.getElem?_append_left (by
      simp only [List.length_append, List.length_cons, List.length_nil]; omega)]
    simpa using getElem?_len_add P [tIf, tLb1] 0
  rw [show B.length + 5 = (B.length + 4) + 1 from by omega,
    ppLoop_step_else (B.length + 4) _ P.length []
      ((P ++ [tIf, tLb1]).length + A.length + 1) (ppSize P + 9 + ppSize A) false tElse tIf
      e0 (.ifOp i0) hidxElse hElse hidxIf2 hIf]
  rw [show (((P ++ [tIf, tLb1]) ++ A) ++ (tRb1 :: tElse :: tLb2 ::
        (B ++ [tRb2, tEof]))).set P.length (patchIf tIf (ppSize P + 9 + ppSize A))
      = ((P ++ [patchIf tIf (ppSize P + 9 + ppSize A), tLb1]) ++ A)
        ++ (tRb1 :: tElse :: tLb2 :: (B ++ [tRb2, tEof])) from by
    rw [List.set_append_left _ _ (by
      simp only [List.length_append, List.length_cons, List.length_nil]; omega)]
    rw [List.set_append_left _ _ (by
      simp only [List.length_append, List.length_cons, List.length_nil]; omega)]
    simp]
  have hidxLb2 : (((P ++ [patchIf tIf (ppSize P + 9 + ppSize A), tLb1]) ++ A)
      ++ (tRb1 :: tElse :: tLb2 ::
        (B ++ [tRb2, tEof])))[(P ++ [tIf, tLb1]).length + A.length + 1 + 1]?
      = some tLb2 := by
    rw [show (P ++ [tIf, tLb1]).length + A.length + 1 + 1
        = ((P ++ [patchIf tIf (ppSize P + 9 + ppSize A), tLb1]) ++ A).length + 2
      from by simp only [List.length_append, List.length_cons, List.length_nil]; try omega]
    simpa using getElem?_len_add
      ((P ++ [patchIf tIf (ppSize P + 9 + ppSize A), tLb1]) ++ A)
      (tRb1 :: tElse :: tLb2 :: (B ++ [tRb2, tEof])) 2
  rw [show B.length + 4 = (B.length + 3) + 1 from by omega,
    ppLoop_step_lbrace (B.length + 3) _ [(P ++ [tIf, tLb1]).length + A.length + 1]
      ((P ++ [tIf, tLb1]).length + A.length + 1 + 1) (ppSize P + 9 + ppSize A + 9) true tLb2
      hidxLb2 hLb2]
  rw [show ((P ++ [patchIf tIf (ppSize P + 9 + ppSize A), tLb1]) ++ A)
        ++ (tRb1 :: tElse :: tLb2 :: (B ++ [tRb2, tEof]))
      = (((P ++ [patchIf tIf (ppSize P + 9 + ppSize A), tLb1]) ++ A)
          ++ [tRb1, tElse, tLb2]) ++ B ++ [tRb2, tEof]
    from by simp]
  rw [show (P ++ [tIf, tLb1]).length + A.length + 1 + 1 + 1
      = ((((P ++ [patchIf tIf (ppSize P + 9 + ppSize A), tLb1]) ++ A)
          ++ [tRb1, tElse, tLb2])).length
    from by simp only [List.length_append, List.length_cons, List.length_nil]; try omega]
  rw [ppLoop_run B
    (((P ++ [patchIf tIf (ppSize P + 9 + ppSize A), tLb1]) ++ A) ++ [tRb1, tElse, tLb2])
    [tRb2, tEof] [(P ++ [tIf, tLb1]).length + A.length + 1]
    (ppSize P + 9 + ppSize A + 9) true 3 hB]
  have hidxRb2 : ((((P ++ [patchIf tIf (ppSize P + 9 + ppSize A), tLb1]) ++ A)
      ++ [tRb1, tElse, tLb2]) ++ B
      ++ [tRb2, tEof])[(((P ++ [patchIf tIf (ppSize P + 9 + ppSize A), tLb1]) ++ A)
        ++ [tRb1, tElse, tLb2]).length + B.length]? = some tRb2 := by
    rw [show ((((P ++ [patchIf tIf (ppSize P + 9 + ppSize A), tLb1]) ++ A)
          ++ [tRb1, tElse, tLb2])).length + B.length
        = (((((P ++ [patchIf tIf (ppSize P + 9 + ppSize A), tLb1]) ++ A)
          ++ [tRb1, tElse, tLb2])) ++ B).length + 0
      from by simp only [List.length_append]; try omega]
    simpa using getElem?_len_add
      ((((P ++ [patchIf tIf (ppSize P + 9 + ppSize A), tLb1]) ++ A)
        ++ [tRb1, tElse, tLb2]) ++ B) [tRb2, tEof] 0
  have hidxElse2 : ((((P ++ [patchIf tIf (ppSize P + 9 + ppSize A), tLb1]) ++ A)
      ++ [tRb1, tElse, tLb2]) ++ B
      ++ [tRb2, tEof])[(P ++ [tIf, tLb1]).length + A.length + 1]? = some tElse := by
    rw [List.getElem?_append_left (by
      simp only [List.length_append, List.length_cons, List.length_nil]; omega)]
    rw [List.getElem?_append_left (by
      simp only [List.length_append, List.length_cons, List.length_nil]; omega)]
    rw [show (P ++ [tIf, tLb1]).length + A.length + 1
        = ((P ++ [patchIf tIf (ppSize P + 9 + ppSize A), tLb1]) ++ A).length + 1
      from by simp only [List.length_append, List.length_cons, List.length_nil]; try omega]
    simpa using getElem?_len_add
      ((P ++ [patchIf tIf (ppSize P + 9 + ppSize A), tLb1]) ++ A) [tRb1, tElse, tLb2] 1
  rw [show (3 : Nat) = 2 + 1 from rfl,
    ppLoop_step_rbrace_patch_else 2 _ ((P ++ [tIf, tLb1]).length + A.length + 1) []
      ((((P ++ [patchIf tIf (ppSize P + 9 + ppSize A), tLb1]) ++ A)
        ++ [tRb1, tElse, tLb2]).length + B.length)
      (ppSize P + 9 + ppSize A + 9 + ppSize B) tRb2 tElse (.elseOp e0)
      hidxRb2 hRb2 hidxElse2 hElse]
  rw [show (((((P ++ [patchIf tIf (ppSize P + 9 + ppSize A), tLb1]) ++ A)
        ++ [tRb1, tElse, tLb2]) ++ B) ++ [tRb2, tEof]).set
        ((P ++ [tIf, tLb1]).length + A.length + 1)
        (patchElse tElse (ppSize P + 9 + ppSize A + 9 + ppSize B))
      = ((((P ++ [patchIf tIf (ppSize P + 9 + ppSize A), tLb1]) ++ A)
        ++ [tRb1, patchElse tElse (ppSize P + 9 + ppSize A + 9 + ppSize B), tLb2]) ++ B)
        ++ [tRb2, tEof] from by
    rw [List.set_append_left _ _ (by
      simp only [List.length_append, List.length_cons, List.length_nil]; omega)]
    rw [List.set_append_left _ _ (by
      simp only [List.length_append, List.length_cons, List.length_nil]; omega)]
    rw [show (P ++ [tIf, tLb1]).length + A.length + 1
        = ((P ++ [patchIf tIf (ppSize P + 9 + ppSize A), tLb1]) ++ A).length + 1
      from by simp only [List.length_append, List.length_cons, List.length_nil]; try omega]
    have := set_len_add ((P ++ [patchIf tIf (ppSize P + 9 + ppSize A), tLb1]) ++ A) 1
      (patchElse tElse (ppSize P + 9 + ppSize A + 9 + ppSize B)) [tRb1, tElse, tLb2]
    rw [this]
    simp]
  have hidxEof2 : ((((P ++ [patchIf tIf (ppSize P + 9 + ppSize A), tLb1]) ++ A)
      ++ [tRb1, patchElse tElse (ppSize P + 9 + ppSize A + 9 + ppSize B), tLb2]) ++ B
      ++ [tRb2, tEof])[(((P ++ [patchIf tIf (ppSize P + 9 + ppSize A), tLb1]) ++ A)
        ++ [tRb1, tElse, tLb2]).length + B.length + 1]? = some tEof := by
    rw [show ((((P ++ [patchIf tIf (ppSize P + 9 + ppSize A), tLb1]) ++ A)
          ++ [tRb1, tElse, tLb2])).length + B.length + 1
        = ((((P ++ [patchIf tIf (ppSize P + 9 + ppSize A), tLb1]) ++ A)
          ++ [tRb1, patchElse tElse (ppSize P + 9 + ppSize A + 9 + ppSize B), tLb2])
            ++ B).length + 1
      from by simp only [List.length_append, List.length_cons, List.length_nil]; try omega]
    simpa using getElem?_len_add
      ((((P ++ [patchIf tIf (ppSize P + 9 + ppSize A), tLb1]) ++ A)
        ++ [tRb1, patchElse tElse (ppSize P + 9 + ppSize A + 9 + ppSize B), tLb2]) ++ B)
      [tRb2, tEof] 1
  rw [show (2 : Nat) = 1 + 1 from rfl,
    ppLoop_step_eof 1 _ []
      ((((P ++ [patchIf tIf (ppSize P + 9 + ppSize A), tLb1]) ++ A)
        ++ [tRb1, tElse, tLb2]).length + B.length + 1)
      (ppSize P + 9 + ppSize A + 9 + ppSize B) false tEof hidxEof2 hEof]
  simp

/-- C1 (amended): for straight-line prefix and bodies, the backpatch pass
resolves an `if { A }` with no `else` so that the `If` token's jump target is
the byte offset immediately after the closing brace (as claimed); but for
`if { A } else { B }` the `If` target is the byte offset of the `Else`
instruction itself — 9 bytes before the start of the else-body `B` — while
the `Else` target is the byte offset immediately after `B`'s closing brace
(as claimed). Emission then writes exactly these targets as the 8-byte
operand after the opcode byte. -/
theorem c1_backpatch_amended :
    (∀ (P A : List Token) (tIf tLb tRb tEof : Token) (i0 : Int),
      (∀ t ∈ P, tokSimple t = true) → (∀ t ∈ A, tokSimple t = true) →
      tIf.typ3 = .instruction (.ifOp i0) → tLb.typ3 = .lbrace →
      tRb.typ3 = .rbrace → tEof.typ3 = .eof →
      preprocessProgram (P ++ tIf :: tLb :: (A ++ [tRb, tEof]))
        = some (.ok (P ++ patchIf tIf (ppSize P + 9 + ppSize A)
            :: tLb :: (A ++ [tRb, tEof]))))
    ∧ (∀ (P A B : List Token) (tIf tLb1 tRb1 tElse tLb2 tRb2 tEof : Token) (i0 e0 : Int),
      (∀ t ∈ P, tokSimple t = true) → (∀ t ∈ A, tokSimple t = true) →
      (∀ t ∈ B, tokSimple t = true) →
      tIf.typ3 = .instruction (.ifOp i0) → tLb1.typ3 = .lbrace →
      tRb1.typ3 = .rbrace → tElse.typ3 = .instruction (.elseOp e0) →
      tLb2.typ3 = .lbrace → tRb2.typ3 = .rbrace → tEof.typ3 = .eof →
      preprocessProgram
          (P ++ tIf :: tLb1 :: (A ++ tRb1 :: tElse :: tLb2 :: (B ++ [tRb2, tEof])))
        = some (.ok (P ++ patchIf tIf (ppSize P + 9 + ppSize A) :: tLb1 ::
            (A ++ tRb1 :: patchElse tElse (ppSize P + 9 + ppSize A + 9 + ppSize B)
              :: tLb2 :: (B ++ [tRb2, tEof])))))
    ∧ (∀ (bc : ByteCode) (t : Token) (r : Int), t.typ3 = .instruction (.ifOp r) →
      bytesFromToken bc t = some { bc with bytes := bc.bytes ++ 12 :: encodeI64 r })
    ∧ (∀ (bc : ByteCode) (t : Token) (r : Int), t.typ3 = .instruction (.elseOp r) →
      bytesFromToken bc t = some { bc with bytes := bc.bytes ++ 13 :: encodeI64 r }) := by
  refine ⟨preprocess_noelse, preprocess_ifelse, ?_, ?_⟩
  · intro bc t r ht
    simp [bytesFromToken, ht, OpCode.asByte]
  · intro bc t r ht
    simp [bytesFromToken, ht, OpCode.asByte]

/-- C1 counterexample: backpatching `if { } else { 1 }` rewrites the `If`
token to target 9, the byte offset of the `Else` instruction (bytes 9–17 of
the instruction stream), not 18, the start of the else-body; the claimed
result (`If` target 18) is not produced. -/
theorem c1_if_target_counterexample :
    preprocessProgram
        [⟨.instruction (.ifOp (-1)), "if", ⟨"t", 1, 2⟩⟩,
         ⟨.lbrace, "\x7b", ⟨"t", 1, 4⟩⟩,
         ⟨.rbrace, "\x7d", ⟨"t", 1, 6⟩⟩,
         ⟨.instruction (.elseOp (-1)), "else", ⟨"t", 1, 11⟩⟩,
         ⟨.lbrace, "\x7b", ⟨"t", 1, 13⟩⟩,
         ⟨.value (.int32 1), "1", ⟨"t", 1, 15⟩⟩,
         ⟨.rbrace, "\x7d", ⟨"t", 1, 17⟩⟩,
         ⟨.eof, "\x7d", ⟨"t", 1, 17⟩⟩]
      = some (.ok
        [⟨.instruction (.ifOp 9), "if", ⟨"t", 1, 2⟩⟩,
         ⟨.lbrace, "\x7b", ⟨"t", 1, 4⟩⟩,
         ⟨.rbrace, "\x7d", ⟨"t", 1, 6⟩⟩,
         ⟨.instruction (.elseOp 27), "else", ⟨"t", 1, 11⟩⟩,
         ⟨.lbrace, "\x7b", ⟨"t", 1, 13⟩⟩,
         ⟨.value (.int32 1), "1", ⟨"t", 1, 15⟩⟩,
         ⟨.rbrace, "\x7d", ⟨"t", 1, 17⟩⟩,
         ⟨.eof, "\x7d", ⟨"t", 1, 17⟩⟩])
    ∧ preprocessProgram
        [⟨.instruction (.ifOp (-1)), "if", ⟨"t", 1, 2⟩⟩,
         ⟨.lbrace, "\x7b", ⟨"t", 1, 4⟩⟩,
         ⟨.rbrace, "\x7d", ⟨"t", 1, 6⟩⟩,
         ⟨.instruction (.elseOp (-1)), "else", ⟨"t", 1, 11⟩⟩,
         ⟨.lbrace, "\x7b", ⟨"t", 1, 13⟩⟩,
         ⟨.value (.int32 1), "1", ⟨"t", 1, 15⟩⟩,
         ⟨.rbrace, "\x7d", ⟨"t", 1, 17⟩⟩,
         ⟨.eof, "\x7d", ⟨"t", 1, 17⟩⟩]
      ≠ some (.ok
        [⟨.instruction (.ifOp 18), "if", ⟨"t", 1, 2⟩⟩,
         ⟨.lbrace, "\x7b", ⟨"t", 1, 4⟩⟩,
         ⟨.rbrace, "\x7d", ⟨"t", 1, 6⟩⟩,
         ⟨.instruction (.elseOp 27), "else", ⟨"t", 1, 11⟩⟩,
         ⟨.lbrace, "\x7b", ⟨"t", 1, 13⟩⟩,
         ⟨.value (.int32 1), "1", ⟨"t", 1, 15⟩⟩,
         ⟨.rbrace, "\x7d", ⟨"t", 1, 17⟩⟩,
         ⟨.eof, "\x7d", ⟨"t", 1, 17⟩⟩]) := by
  exact ⟨rfl, by decide⟩

/-- C1 witness: the no-else clause of the amended theorem evaluated on the
smallest program `if { }` — the `If` token gets target 9, the offset
immediately after the closing brace. -/
theorem c1_backpatch_witness :
    preprocessProgram
        [⟨.instruction (.ifOp (-1)), "if", ⟨"t", 1, 2⟩⟩,
         ⟨.lbrace, "\x7b", ⟨"t", 1, 4⟩⟩,
         ⟨.rbrace, "\x7d", ⟨"t", 1, 6⟩⟩,
         ⟨.eof, "\x7d", ⟨"t", 1, 6⟩⟩]
      = some (.ok
        [patchIf ⟨.instruction (.ifOp (-1)), "if", ⟨"t", 1, 2⟩⟩ 9,
         ⟨.lbrace, "\x7b", ⟨"t", 1, 4⟩⟩,
         ⟨.rbrace, "\x7d", ⟨"t", 1, 6⟩⟩,
         ⟨.eof, "\x7d", ⟨"t", 1, 6⟩⟩]) := by
  have h := c1_backpatch_amended.1 [] []
    ⟨.instruction (.ifOp (-1)), "if", ⟨"t", 1, 2⟩⟩
    ⟨.lbrace, "\x7b", ⟨"t", 1, 4⟩⟩
    ⟨.rbrace, "\x7d", ⟨"t", 1, 6⟩⟩
    ⟨.eof, "\x7d", ⟨"t", 1, 6⟩⟩ (-1)
    (by simp) (by simp) rfl rfl rfl rfl
  simpa [ppSize] using h

end Ncp
